import Mathlib

/-!
# Verification of the DigitalOcean Terraform provider's app-spec mapping layer

Shallow embedding of `src/digitalocean/app_spec.go` (the expand/flatten
functions between Terraform attribute maps and `godo` SDK structs) and of the
acceptance-test sweeper in
`src/digitalocean/resource_digitalocean_spaces_bucket_object_test.go`.

Modelling conventions:
* Go `interface{}` values are the inductive `DVal`.  Distinct Go dynamic types
  are distinct constructors: `[]interface{}` is `vList`,
  `[]map[string]interface{}` is `vMapList`, `*schema.Set` is `vSet`, and the
  named string type `godo.AppDatabaseSpecEngine` wrapped in an interface is
  `vEngine` (Go type assertions and interface equality distinguish it from
  `string`).  The list and map payloads are the mutually inductive `DList`,
  `DMap`, `DMaps`, isomorphic to ordinary lists via `ofList`/`toList`; the
  smart constructors `DVal.listV`, `DVal.setV`, `DVal.mapV`, `DVal.mapListV`
  build values directly from lists.
* Go `map[string]interface{}` is an association list `AttrMap`.  Go maps are
  unordered, so a map value is represented by the canonical ordering of its
  entries (the order in which the source's flatten functions write them); all
  code under verification accesses maps only by key lookup, which is order
  independent.  A missing key reads as `vNil`, exactly as in Go.
* A `schema.Set` is modelled as its list of elements; `Set.Add` deduplicates
  (`ssetAdd`), as the SDK's hash-based set does.  The SDK iterates a set in
  hash order; the model keeps insertion order, and every set-valued claim is
  stated up to membership so that no conclusion depends on the order choice.
* A Go function that can panic (failed type assertion, out-of-bounds index) is
  modelled in the `Option` monad, `none` being the panic.
* Go `int` and `int64` are both modelled as `Int`: the code only converts
  between the two, with no arithmetic, and the provider targets platforms on
  which `int` is 64 bits, so the conversions are the identity.
* Nil and empty Go slices held in struct fields are both modelled as `[]`:
  every use of such a field in this code is via `len` or `range`, which cannot
  tell them apart.  Nilable struct pointers are `Option`.
-/

mutual

/-- A Go `interface{}` value as it occurs in the Terraform attribute maps of
`app_spec.go`. -/
inductive DVal where
  /-- a `string` -/
  | vStr (s : String)
  /-- an `int` -/
  | vInt (n : Int)
  /-- a `bool` -/
  | vBool (b : Bool)
  /-- a `[]interface{}` -/
  | vList (l : DList)
  /-- a `*schema.Set` (elements listed in the set's iteration order) -/
  | vSet (l : DList)
  /-- a `map[string]interface{}` -/
  | vMap (m : DMap)
  /-- a `[]map[string]interface{}` (a distinct Go type from `[]interface{}`) -/
  | vMapList (l : DMaps)
  /-- a `godo.AppDatabaseSpecEngine` (a named string type, distinct from
  `string` for Go type assertions and interface equality) -/
  | vEngine (s : String)
  /-- the nil interface value -/
  | vNil

/-- A list of `DVal` (payload of `vList` and `vSet`). -/
inductive DList where
  | nil
  | cons (hd : DVal) (tl : DList)

/-- String-keyed entries of a Go map (payload of `vMap`). -/
inductive DMap where
  | nil
  | cons (k : String) (v : DVal) (tl : DMap)

/-- A list of maps (payload of `vMapList`). -/
inductive DMaps where
  | nil
  | cons (hd : DMap) (tl : DMaps)

end

deriving instance DecidableEq for DVal, DList, DMap, DMaps

/-- A Go `map[string]interface{}`, as a canonically ordered association list. -/
abbrev AttrMap := List (String × DVal)

/-- Conversion of a `DList` to an ordinary list. -/
def DList.toList : DList → List DVal
  | .nil => []
  | .cons h t => h :: t.toList

/-- Conversion of an ordinary list to a `DList`. -/
def DList.ofList : List DVal → DList
  | [] => .nil
  | x :: xs => .cons x (DList.ofList xs)

/-- Conversion of a `DMap` to an association list. -/
def DMap.toList : DMap → AttrMap
  | .nil => []
  | .cons k v t => (k, v) :: t.toList

/-- Conversion of an association list to a `DMap`. -/
def DMap.ofList : AttrMap → DMap
  | [] => .nil
  | (k, v) :: xs => .cons k v (DMap.ofList xs)

/-- Conversion of a `DMaps` to a list of association lists. -/
def DMaps.toList : DMaps → List AttrMap
  | .nil => []
  | .cons h t => h.toList :: t.toList

/-- Conversion of a list of association lists to a `DMaps`. -/
def DMaps.ofList : List AttrMap → DMaps
  | [] => .nil
  | m :: ms => .cons (DMap.ofList m) (DMaps.ofList ms)

@[simp] theorem dlist_toList_ofList (l : List DVal) : (DList.ofList l).toList = l := by
  induction l with
  | nil => rfl
  | cons x xs ih => simp [DList.ofList, DList.toList, ih]

@[simp] theorem dmap_toList_ofList (m : AttrMap) : (DMap.ofList m).toList = m := by
  induction m with
  | nil => rfl
  | cons x xs ih => cases x; simp [DMap.ofList, DMap.toList, ih]

@[simp] theorem dmaps_toList_ofList (l : List AttrMap) : (DMaps.ofList l).toList = l := by
  induction l with
  | nil => rfl
  | cons x xs ih => simp [DMaps.ofList, DMaps.toList, ih]

theorem dlist_ofList_inj {a b : List DVal} (h : DList.ofList a = DList.ofList b) : a = b := by
  have := congrArg DList.toList h
  simpa using this

theorem dmap_ofList_inj {a b : AttrMap} (h : DMap.ofList a = DMap.ofList b) : a = b := by
  have := congrArg DMap.toList h
  simpa using this

theorem dmaps_ofList_inj {a b : List AttrMap} (h : DMaps.ofList a = DMaps.ofList b) : a = b := by
  have := congrArg DMaps.toList h
  simpa using this

/-- Smart constructor: a `[]interface{}` value from a list. -/
def DVal.listV (l : List DVal) : DVal := .vList (DList.ofList l)

/-- Smart constructor: a `*schema.Set` value from its element list. -/
def DVal.setV (l : List DVal) : DVal := .vSet (DList.ofList l)

/-- Smart constructor: a `map[string]interface{}` value from an association
list. -/
def DVal.mapV (m : AttrMap) : DVal := .vMap (DMap.ofList m)

/-- Smart constructor: a `[]map[string]interface{}` value from a list of
association lists. -/
def DVal.mapListV (l : List AttrMap) : DVal := .vMapList (DMaps.ofList l)

@[simp] theorem DVal.listV_inj {a b : List DVal} : DVal.listV a = DVal.listV b ↔ a = b := by
  constructor
  · intro h
    exact dlist_ofList_inj (DVal.vList.inj h)
  · intro h
    exact congrArg _ h

@[simp] theorem DVal.mapV_inj {a b : AttrMap} : DVal.mapV a = DVal.mapV b ↔ a = b := by
  constructor
  · intro h
    exact dmap_ofList_inj (DVal.vMap.inj h)
  · intro h
    exact congrArg _ h

@[simp] theorem DVal.setV_inj {a b : List DVal} : DVal.setV a = DVal.setV b ↔ a = b := by
  constructor
  · intro h
    exact dlist_ofList_inj (DVal.vSet.inj h)
  · intro h
    exact congrArg _ h

@[simp] theorem DVal.mapListV_inj {a b : List AttrMap} :
    DVal.mapListV a = DVal.mapListV b ↔ a = b := by
  constructor
  · intro h
    exact dmaps_ofList_inj (DVal.vMapList.inj h)
  · intro h
    exact congrArg _ h

/-- Lookup `m[k]` on a Go map: the stored value, or the nil interface value
when the key is absent. -/
def mapLookup (m : AttrMap) (k : String) : DVal :=
  match m.lookup k with
  | some v => v
  | none => .vNil

@[simp] theorem mapLookup_nil (k : String) : mapLookup [] k = .vNil := rfl

@[simp] theorem mapLookup_cons_self (k : String) (v : DVal) (m : AttrMap) :
    mapLookup ((k, v) :: m) k = v := by
  simp [mapLookup, List.lookup]

@[simp] theorem mapLookup_cons_ne (k k' : String) (v : DVal) (m : AttrMap) (h : k ≠ k') :
    mapLookup ((k', v) :: m) k = mapLookup m k := by
  have hb : (k == k') = false := by
    simpa using h
  simp [mapLookup, List.lookup, hb]

/-- Comparison `v == nil` on an interface value. -/
def DVal.isNil : DVal → Bool
  | .vNil => true
  | _ => false

/-- Type assertion `.(string)`: panics (`none`) unless the value is a string. -/
def DVal.asStr : DVal → Option String
  | .vStr s => some s
  | _ => none

/-- Type assertion `.(int)`. -/
def DVal.asInt : DVal → Option Int
  | .vInt n => some n
  | _ => none

/-- Type assertion `.(bool)`. -/
def DVal.asBool : DVal → Option Bool
  | .vBool b => some b
  | _ => none

/-- Type assertion `.([]interface{})`. -/
def DVal.asList : DVal → Option (List DVal)
  | .vList l => some l.toList
  | _ => none

/-- Type assertion `.(map[string]interface{})`. -/
def DVal.asMap : DVal → Option AttrMap
  | .vMap m => some m.toList
  | _ => none

/-- Type assertion `.(*schema.Set)` followed by `.List()`: the set elements. -/
def DVal.asSetList : DVal → Option (List DVal)
  | .vSet l => some l.toList
  | _ => none

@[simp] theorem DVal.asList_listV (l : List DVal) : (DVal.listV l).asList = some l := by
  simp [DVal.listV, DVal.asList]

@[simp] theorem DVal.asMap_mapV (m : AttrMap) : (DVal.mapV m).asMap = some m := by
  simp [DVal.mapV, DVal.asMap]

@[simp] theorem DVal.asSetList_setV (l : List DVal) : (DVal.setV l).asSetList = some l := by
  simp [DVal.setV, DVal.asSetList]

/-- Effect of `schema.Set.Add`: insert unless an equal element is present. -/
def ssetAdd (l : List DVal) (x : DVal) : List DVal :=
  if x ∈ l then l else l ++ [x]

/-- Build a `schema.Set` by successive `Add` calls starting from
`schema.NewSet(hash, []interface{}{})`. -/
def ssetOfList (xs : List DVal) : List DVal :=
  xs.foldl ssetAdd []

/-- Go-style fallible map over a list: the loop bodies of the expand functions
append one translated element per iteration and panic (`none`) on a failed
type assertion. -/
def mapOptM {α β : Type} (f : α → Option β) : List α → Option (List β)
  | [] => some []
  | x :: xs => do
    let y ← f x
    let ys ← mapOptM f xs
    pure (y :: ys)

theorem mapOptM_eq_map {α β : Type} (f : α → Option β) (g : α → β) (l : List α)
    (h : ∀ x ∈ l, f x = some (g x)) : mapOptM f l = some (l.map g) := by
  induction l with
  | nil => rfl
  | cons x xs ih =>
    simp only [mapOptM, h x (List.mem_cons_self x xs), Option.bind_eq_bind, Option.some_bind,
      ih (fun y hy => h y (List.mem_cons_of_mem x hy)), List.map_cons]
    rfl

/-! ## The godo SDK structs used by `app_spec.go`

Field names follow the Go structs.  `godo.AppVariableDefinition.Type` is
rendered as `VarType` because `Type` is reserved in Lean. -/

/-- Struct `godo.AppDomainSpec`. -/
structure AppDomainSpec where
  Domain : String
  deriving DecidableEq, Repr

/-- Struct `godo.GitHubSourceSpec`. -/
structure GitHubSourceSpec where
  Repo : String
  Branch : String
  DeployOnPush : Bool
  deriving DecidableEq, Repr

/-- Struct `godo.GitSourceSpec`. -/
structure GitSourceSpec where
  Branch : String
  RepoCloneURL : String
  deriving DecidableEq, Repr

/-- Struct `godo.AppVariableDefinition`; `Scope` and `VarType` are the named
string types `godo.AppVariableScope` and `godo.AppVariableType`, which the
code always converts to and from `string` at the map boundary. -/
structure AppVariableDefinition where
  Value : String
  Scope : String
  Key : String
  VarType : String
  deriving DecidableEq, Repr

/-- Struct `godo.AppRouteSpec`. -/
structure AppRouteSpec where
  Path : String
  deriving DecidableEq, Repr

/-- Struct `godo.AppServiceSpecHealthCheck`. -/
structure AppServiceSpecHealthCheck where
  Path : String
  deriving DecidableEq, Repr

/-- Struct `godo.AppServiceSpec` (the fields `app_spec.go` touches). -/
structure AppServiceSpec where
  Name : String
  RunCommand : String
  BuildCommand : String
  HTTPPort : Int
  DockerfilePath : String
  Envs : List AppVariableDefinition
  InstanceSizeSlug : String
  InstanceCount : Int
  SourceDir : String
  EnvironmentSlug : String
  GitHub : Option GitHubSourceSpec
  Git : Option GitSourceSpec
  Routes : List AppRouteSpec
  HealthCheck : Option AppServiceSpecHealthCheck
  deriving DecidableEq, Repr

/-- Struct `godo.AppStaticSiteSpec` (the fields `app_spec.go` touches). -/
structure AppStaticSiteSpec where
  Name : String
  BuildCommand : String
  DockerfilePath : String
  Envs : List AppVariableDefinition
  SourceDir : String
  OutputDir : String
  IndexDocument : String
  ErrorDocument : String
  EnvironmentSlug : String
  GitHub : Option GitHubSourceSpec
  Git : Option GitSourceSpec
  Routes : List AppRouteSpec
  deriving DecidableEq, Repr

/-- Struct `godo.AppWorkerSpec` (the fields `app_spec.go` touches). -/
structure AppWorkerSpec where
  Name : String
  RunCommand : String
  BuildCommand : String
  DockerfilePath : String
  Envs : List AppVariableDefinition
  InstanceSizeSlug : String
  InstanceCount : Int
  SourceDir : String
  EnvironmentSlug : String
  GitHub : Option GitHubSourceSpec
  Git : Option GitSourceSpec
  deriving DecidableEq, Repr

/-- Struct `godo.AppDatabaseSpec`; `Engine` is the named string type
`godo.AppDatabaseSpecEngine`. -/
structure AppDatabaseSpec where
  Name : String
  Engine : String
  Version : String
  Production : Bool
  ClusterName : String
  DBName : String
  DBUser : String
  deriving DecidableEq, Repr

/-- Struct `godo.AppSpec` (the fields `app_spec.go` touches). -/
structure AppSpec where
  Name : String
  Region : String
  Domains : List AppDomainSpec
  Services : List AppServiceSpec
  StaticSites : List AppStaticSiteSpec
  Workers : List AppWorkerSpec
  Databases : List AppDatabaseSpec
  deriving DecidableEq, Repr

/-- Zero value `godo.AppSpec{}`. -/
def zeroAppSpec : AppSpec :=
  ⟨"", "", [], [], [], [], []⟩

/-! ## The expand and flatten functions of `app_spec.go`

Each definition mirrors one Go function.  Flatten functions that return
`[]interface{}` or a `*schema.Set` are given here as the Lean list of the
elements, wrapped by `DVal.listV`, `DVal.setV` or `DVal.mapListV` at the point
where the Go code stores the result into an attribute map. -/

/-- Loop body of `expandAppDomainSpec` (app_spec.go:375): one raw domain. -/
def expandAppDomainOne (rawDomain : DVal) : Option AppDomainSpec := do
  let d ← rawDomain.asStr
  pure (AppDomainSpec.mk d)

/-- Function `expandAppDomainSpec` (app_spec.go:372). -/
def expandAppDomainSpec (config : List DVal) : Option (List AppDomainSpec) :=
  mapOptM expandAppDomainOne config

/-- Function `flattenAppDomainSpec` (app_spec.go:386); the returned
`*schema.Set` is given as its element list. -/
def flattenAppDomainSpec (spec : List AppDomainSpec) : List DVal :=
  ssetOfList (spec.map (fun domain => .vStr domain.Domain))

/-- Function `expandAppGitHubSourceSpec` (app_spec.go:398); reads `config[0]`
with no length guard, so the empty list panics (`none`). -/
def expandAppGitHubSourceSpec (config : List DVal) : Option GitHubSourceSpec := do
  let c ← config.head?
  let gitHubSourceConfig ← c.asMap
  let repo ← (mapLookup gitHubSourceConfig "repo").asStr
  let branch ← (mapLookup gitHubSourceConfig "branch").asStr
  let deployOnPush ← (mapLookup gitHubSourceConfig "deploy_on_push").asBool
  pure (GitHubSourceSpec.mk repo branch deployOnPush)

/-- Function `flattenAppGitHubSourceSpec` (app_spec.go:410). -/
def flattenAppGitHubSourceSpec : Option GitHubSourceSpec → List DVal
  | none => []
  | some spec =>
    [.mapV [("repo", .vStr spec.Repo), ("branch", .vStr spec.Branch),
            ("deploy_on_push", .vBool spec.DeployOnPush)]]

/-- Function `expandAppGitSourceSpec` (app_spec.go:426); reads `config[0]`
with no length guard. -/
def expandAppGitSourceSpec (config : List DVal) : Option GitSourceSpec := do
  let c ← config.head?
  let gitSourceConfig ← c.asMap
  let branch ← (mapLookup gitSourceConfig "branch").asStr
  let repoCloneURL ← (mapLookup gitSourceConfig "repo_clone_url").asStr
  pure (GitSourceSpec.mk branch repoCloneURL)

/-- Function `flattenAppGitSourceSpec` (app_spec.go:437). -/
def flattenAppGitSourceSpec : Option GitSourceSpec → List DVal
  | none => []
  | some spec =>
    [.mapV [("branch", .vStr spec.Branch), ("repo_clone_url", .vStr spec.RepoCloneURL)]]

/-- Loop body of `expandAppEnvs` (app_spec.go:455): one raw env map. -/
def expandAppEnvOne (rawEnv : DVal) : Option AppVariableDefinition := do
  let env ← rawEnv.asMap
  let value ← (mapLookup env "value").asStr
  let scope ← (mapLookup env "scope").asStr
  let key ← (mapLookup env "key").asStr
  let ty ← (mapLookup env "type").asStr
  pure (AppVariableDefinition.mk value scope key ty)

/-- Function `expandAppEnvs` (app_spec.go:452). -/
def expandAppEnvs (config : List DVal) : Option (List AppVariableDefinition) :=
  mapOptM expandAppEnvOne config

/-- Map built for one `AppVariableDefinition` by `flattenAppEnvs`. -/
def flattenAppEnvMap (env : AppVariableDefinition) : AttrMap :=
  [("value", .vStr env.Value), ("scope", .vStr env.Scope),
   ("key", .vStr env.Key), ("type", .vStr env.VarType)]

/-- Function `flattenAppEnvs` (app_spec.go:471); the returned `*schema.Set`
is given as its element list. -/
def flattenAppEnvs (appEnvs : List AppVariableDefinition) : List DVal :=
  ssetOfList (appEnvs.map (fun env => .mapV (flattenAppEnvMap env)))

/-- Function `expandAppHealthCheck` (app_spec.go:489); reads `config[0]` with
no length guard. -/
def expandAppHealthCheck (config : List DVal) : Option AppServiceSpecHealthCheck := do
  let c ← config.head?
  let healthCheckConfig ← c.asMap
  let path ← (mapLookup healthCheckConfig "path").asStr
  pure (AppServiceSpecHealthCheck.mk path)

/-- Function `flattenAppHealthCheck` (app_spec.go:499). -/
def flattenAppHealthCheck : Option AppServiceSpecHealthCheck → List DVal
  | none => []
  | some check => [.mapV [("path", .vStr check.Path)]]

/-- Loop body of `expandAppRoutes` (app_spec.go:516): one raw route map. -/
def expandAppRouteOne (rawRoute : DVal) : Option AppRouteSpec := do
  let route ← rawRoute.asMap
  let path ← (mapLookup route "path").asStr
  pure (AppRouteSpec.mk path)

/-- Function `expandAppRoutes` (app_spec.go:513). -/
def expandAppRoutes (config : List DVal) : Option (List AppRouteSpec) :=
  mapOptM expandAppRouteOne config

/-- Function `flattenAppRoutes` (app_spec.go:529). -/
def flattenAppRoutes (routes : List AppRouteSpec) : List DVal :=
  routes.map (fun route => .mapV [("path", .vStr route.Path)])


/-- Guarded source expansion shared by the component loop bodies: the Go
pattern `if len(config) > 0 { field = expandF(config) }`, the pointer field
remaining nil (`none`) otherwise. -/
def expandSourceField {α : Type} (f : List DVal → Option α) (config : List DVal) :
    Option (Option α) :=
  if 0 < config.length then (f config).bind (fun g => some (some g)) else some none

/-- Guarded route expansion: the Go pattern
`if len(routes) > 0 { s.Routes = expandAppRoutes(routes) }`, the slice field
remaining nil (modelled `[]`) otherwise. -/
def expandRoutesField (config : List DVal) : Option (List AppRouteSpec) :=
  if 0 < config.length then expandAppRoutes config else some []

/-- Values of the scalar attributes read by the `AppServiceSpec` literal of
`expandAppSpecServices` (app_spec.go:550). -/
structure ServiceScalars where
  name : String
  runCommand : String
  buildCommand : String
  httpPort : Int
  dockerfilePath : String
  instanceSizeSlug : String
  instanceCount : Int
  sourceDir : String
  environmentSlug : String
  deriving DecidableEq, Repr

/-- Scalar reads of the `AppServiceSpec` literal (app_spec.go:550): each is a
map index followed by a type assertion, with `int` values converted by
`int64(...)`. -/
def readServiceScalars (service : AttrMap) : Option ServiceScalars := do
  let name ← (mapLookup service "name").asStr
  let runCommand ← (mapLookup service "run_command").asStr
  let buildCommand ← (mapLookup service "build_command").asStr
  let httpPort ← (mapLookup service "http_port").asInt
  let dockerfilePath ← (mapLookup service "dockerfile_path").asStr
  let instanceSizeSlug ← (mapLookup service "instance_size_slug").asStr
  let instanceCount ← (mapLookup service "instance_count").asInt
  let sourceDir ← (mapLookup service "source_dir").asStr
  let environmentSlug ← (mapLookup service "environment_slug").asStr
  pure (ServiceScalars.mk name runCommand buildCommand httpPort dockerfilePath
    instanceSizeSlug instanceCount sourceDir environmentSlug)

/-- Env read shared by the three component loop bodies:
`expandAppEnvs(m["env"].(*schema.Set).List())`. -/
def readComponentEnvs (m : AttrMap) : Option (List AppVariableDefinition) := do
  let envSetList ← (mapLookup m "env").asSetList
  expandAppEnvs envSetList

/-- GitHub-source read shared by the component loop bodies:
`github := m["github"].([]interface{})` followed by the guarded expansion. -/
def readGitHubField (m : AttrMap) : Option (Option GitHubSourceSpec) := do
  let github ← (mapLookup m "github").asList
  expandSourceField expandAppGitHubSourceSpec github

/-- Git-source read shared by the component loop bodies. -/
def readGitField (m : AttrMap) : Option (Option GitSourceSpec) := do
  let git ← (mapLookup m "git").asList
  expandSourceField expandAppGitSourceSpec git

/-- Routes read shared by the service and static-site loop bodies. -/
def readRoutesField (m : AttrMap) : Option (List AppRouteSpec) := do
  let routes ← (mapLookup m "routes").asList
  expandRoutesField routes

/-- Health-check read of the service loop body:
`checks := service["health_check"].([]interface{})` and guarded expansion. -/
def readHealthCheckField (m : AttrMap) : Option (Option AppServiceSpecHealthCheck) := do
  let checks ← (mapLookup m "health_check").asList
  expandSourceField expandAppHealthCheck checks

/-- Loop body of `expandAppSpecServices` (app_spec.go:547): translation of one
raw service configuration value. -/
def expandAppServiceMap (rawService : DVal) : Option AppServiceSpec := do
  let service ← rawService.asMap
  let sc ← readServiceScalars service
  let envs ← readComponentEnvs service
  let gitHubField ← readGitHubField service
  let gitField ← readGitField service
  let routesField ← readRoutesField service
  let healthCheckField ← readHealthCheckField service
  pure (AppServiceSpec.mk sc.name sc.runCommand sc.buildCommand sc.httpPort
    sc.dockerfilePath envs sc.instanceSizeSlug sc.instanceCount sc.sourceDir
    sc.environmentSlug gitHubField gitField routesField healthCheckField)

/-- Function `expandAppSpecServices` (app_spec.go:544). -/
def expandAppSpecServices (config : List DVal) : Option (List AppServiceSpec) :=
  mapOptM expandAppServiceMap config

/-- Loop body of `flattenAppSpecServices` (app_spec.go:592): the map built for
one service, keys in the order the source writes them. -/
def flattenAppServiceMap (s : AppServiceSpec) : AttrMap :=
  [("name", .vStr s.Name),
   ("run_command", .vStr s.RunCommand),
   ("build_command", .vStr s.BuildCommand),
   ("github", .listV (flattenAppGitHubSourceSpec s.GitHub)),
   ("git", .listV (flattenAppGitSourceSpec s.Git)),
   ("http_port", .vInt s.HTTPPort),
   ("routes", .listV (flattenAppRoutes s.Routes)),
   ("dockerfile_path", .vStr s.DockerfilePath),
   ("env", .setV (flattenAppEnvs s.Envs)),
   ("health_check", .listV (flattenAppHealthCheck s.HealthCheck)),
   ("instance_size_slug", .vStr s.InstanceSizeSlug),
   ("instance_count", .vInt s.InstanceCount),
   ("source_dir", .vStr s.SourceDir),
   ("environment_slug", .vStr s.EnvironmentSlug)]

/-- Function `flattenAppSpecServices` (app_spec.go:589); returns
`[]map[string]interface{}`, one map per service, in input order. -/
def flattenAppSpecServices (services : List AppServiceSpec) : List AttrMap :=
  services.map flattenAppServiceMap

/-- Values of the scalar attributes read by the `AppStaticSiteSpec` literal of
`expandAppSpecStaticSites` (app_spec.go:622). -/
structure StaticSiteScalars where
  name : String
  buildCommand : String
  dockerfilePath : String
  sourceDir : String
  outputDir : String
  indexDocument : String
  errorDocument : String
  environmentSlug : String
  deriving DecidableEq, Repr

/-- Scalar reads of the `AppStaticSiteSpec` literal (app_spec.go:622). -/
def readStaticSiteScalars (site : AttrMap) : Option StaticSiteScalars := do
  let name ← (mapLookup site "name").asStr
  let buildCommand ← (mapLookup site "build_command").asStr
  let dockerfilePath ← (mapLookup site "dockerfile_path").asStr
  let sourceDir ← (mapLookup site "source_dir").asStr
  let outputDir ← (mapLookup site "output_dir").asStr
  let indexDocument ← (mapLookup site "index_document").asStr
  let errorDocument ← (mapLookup site "error_document").asStr
  let environmentSlug ← (mapLookup site "environment_slug").asStr
  pure (StaticSiteScalars.mk name buildCommand dockerfilePath sourceDir outputDir
    indexDocument errorDocument environmentSlug)

/-- Loop body of `expandAppSpecStaticSites` (app_spec.go:619). -/
def expandAppStaticSiteMap (rawSite : DVal) : Option AppStaticSiteSpec := do
  let site ← rawSite.asMap
  let sc ← readStaticSiteScalars site
  let envs ← readComponentEnvs site
  let gitHubField ← readGitHubField site
  let gitField ← readGitField site
  let routesField ← readRoutesField site
  pure (AppStaticSiteSpec.mk sc.name sc.buildCommand sc.dockerfilePath envs
    sc.sourceDir sc.outputDir sc.indexDocument sc.errorDocument sc.environmentSlug
    gitHubField gitField routesField)

/-- Function `expandAppSpecStaticSites` (app_spec.go:616). -/
def expandAppSpecStaticSites (config : List DVal) : Option (List AppStaticSiteSpec) :=
  mapOptM expandAppStaticSiteMap config

/-- Loop body of `flattenAppSpecStaticSites` (app_spec.go:658). -/
def flattenAppStaticSiteMap (s : AppStaticSiteSpec) : AttrMap :=
  [("name", .vStr s.Name),
   ("build_command", .vStr s.BuildCommand),
   ("github", .listV (flattenAppGitHubSourceSpec s.GitHub)),
   ("git", .listV (flattenAppGitSourceSpec s.Git)),
   ("routes", .listV (flattenAppRoutes s.Routes)),
   ("dockerfile_path", .vStr s.DockerfilePath),
   ("env", .setV (flattenAppEnvs s.Envs)),
   ("source_dir", .vStr s.SourceDir),
   ("output_dir", .vStr s.OutputDir),
   ("index_document", .vStr s.IndexDocument),
   ("error_document", .vStr s.ErrorDocument),
   ("environment_slug", .vStr s.EnvironmentSlug)]

/-- Function `flattenAppSpecStaticSites` (app_spec.go:655). -/
def flattenAppSpecStaticSites (sites : List AppStaticSiteSpec) : List AttrMap :=
  sites.map flattenAppStaticSiteMap

/-- Values of the scalar attributes read by the `AppWorkerSpec` literal of
`expandAppSpecWorkers` (app_spec.go:686). -/
structure WorkerScalars where
  name : String
  runCommand : String
  buildCommand : String
  dockerfilePath : String
  instanceSizeSlug : String
  instanceCount : Int
  sourceDir : String
  environmentSlug : String
  deriving DecidableEq, Repr

/-- Scalar reads of the `AppWorkerSpec` literal (app_spec.go:686). -/
def readWorkerScalars (worker : AttrMap) : Option WorkerScalars := do
  let name ← (mapLookup worker "name").asStr
  let runCommand ← (mapLookup worker "run_command").asStr
  let buildCommand ← (mapLookup worker "build_command").asStr
  let dockerfilePath ← (mapLookup worker "dockerfile_path").asStr
  let instanceSizeSlug ← (mapLookup worker "instance_size_slug").asStr
  let instanceCount ← (mapLookup worker "instance_count").asInt
  let sourceDir ← (mapLookup worker "source_dir").asStr
  let environmentSlug ← (mapLookup worker "environment_slug").asStr
  pure (WorkerScalars.mk name runCommand buildCommand dockerfilePath
    instanceSizeSlug instanceCount sourceDir environmentSlug)

/-- Loop body of `expandAppSpecWorkers` (app_spec.go:683). -/
def expandAppWorkerMap (rawWorker : DVal) : Option AppWorkerSpec := do
  let worker ← rawWorker.asMap
  let sc ← readWorkerScalars worker
  let envs ← readComponentEnvs worker
  let gitHubField ← readGitHubField worker
  let gitField ← readGitField worker
  pure (AppWorkerSpec.mk sc.name sc.runCommand sc.buildCommand sc.dockerfilePath
    envs sc.instanceSizeSlug sc.instanceCount sc.sourceDir sc.environmentSlug
    gitHubField gitField)

/-- Function `expandAppSpecWorkers` (app_spec.go:680). -/
def expandAppSpecWorkers (config : List DVal) : Option (List AppWorkerSpec) :=
  mapOptM expandAppWorkerMap config

/-- Loop body of `flattenAppSpecWorkers` (app_spec.go:717). -/
def flattenAppWorkerMap (w : AppWorkerSpec) : AttrMap :=
  [("name", .vStr w.Name),
   ("run_command", .vStr w.RunCommand),
   ("build_command", .vStr w.BuildCommand),
   ("github", .listV (flattenAppGitHubSourceSpec w.GitHub)),
   ("git", .listV (flattenAppGitSourceSpec w.Git)),
   ("dockerfile_path", .vStr w.DockerfilePath),
   ("env", .setV (flattenAppEnvs w.Envs)),
   ("instance_size_slug", .vStr w.InstanceSizeSlug),
   ("instance_count", .vInt w.InstanceCount),
   ("source_dir", .vStr w.SourceDir),
   ("environment_slug", .vStr w.EnvironmentSlug)]

/-- Function `flattenAppSpecWorkers` (app_spec.go:714). -/
def flattenAppSpecWorkers (workers : List AppWorkerSpec) : List AttrMap :=
  workers.map flattenAppWorkerMap

/-- Loop body of `expandAppSpecDatabases` (app_spec.go:741).  The `engine`
string is converted by `godo.AppDatabaseSpecEngine(...)`, a bare cast that
accepts any string. -/
def expandAppDatabaseMap (rawDatabase : DVal) : Option AppDatabaseSpec := do
  let db ← rawDatabase.asMap
  let name ← (mapLookup db "name").asStr
  let engine ← (mapLookup db "engine").asStr
  let version ← (mapLookup db "version").asStr
  let production ← (mapLookup db "production").asBool
  let clusterName ← (mapLookup db "cluster_name").asStr
  let dbName ← (mapLookup db "db_name").asStr
  let dbUser ← (mapLookup db "db_user").asStr
  pure (AppDatabaseSpec.mk name engine version production clusterName dbName dbUser)

/-- Function `expandAppSpecDatabases` (app_spec.go:738). -/
def expandAppSpecDatabases (config : List DVal) : Option (List AppDatabaseSpec) :=
  mapOptM expandAppDatabaseMap config

/-- Loop body of `flattenAppSpecDatabases` (app_spec.go:763).  The source
stores `db.Engine` without a `string` conversion, so the interface value keeps
the named type `godo.AppDatabaseSpecEngine`: constructor `vEngine`. -/
def flattenAppDatabaseMap (db : AppDatabaseSpec) : AttrMap :=
  [("name", .vStr db.Name),
   ("engine", .vEngine db.Engine),
   ("version", .vStr db.Version),
   ("production", .vBool db.Production),
   ("cluster_name", .vStr db.ClusterName),
   ("db_name", .vStr db.DBName),
   ("db_user", .vStr db.DBUser)]

/-- Function `flattenAppSpecDatabases` (app_spec.go:760). -/
def flattenAppSpecDatabases (databases : List AppDatabaseSpec) : List AttrMap :=
  databases.map flattenAppDatabaseMap

/-- Domains read of `expandAppSpec`:
`expandAppDomainSpec(m["domains"].(*schema.Set).List())`. -/
def readAppSpecDomains (m : AttrMap) : Option (List AppDomainSpec) := do
  let domainsSet ← (mapLookup m "domains").asSetList
  expandAppDomainSpec domainsSet

/-- Services read of `expandAppSpec`:
`expandAppSpecServices(m["service"].([]interface{}))`. -/
def readAppSpecServiceList (m : AttrMap) : Option (List AppServiceSpec) := do
  let cfg ← (mapLookup m "service").asList
  expandAppSpecServices cfg

/-- Static-sites read of `expandAppSpec`. -/
def readAppSpecStaticSiteList (m : AttrMap) : Option (List AppStaticSiteSpec) := do
  let cfg ← (mapLookup m "static_site").asList
  expandAppSpecStaticSites cfg

/-- Workers read of `expandAppSpec`. -/
def readAppSpecWorkerList (m : AttrMap) : Option (List AppWorkerSpec) := do
  let cfg ← (mapLookup m "worker").asList
  expandAppSpecWorkers cfg

/-- Databases read of `expandAppSpec`. -/
def readAppSpecDatabaseList (m : AttrMap) : Option (List AppDatabaseSpec) := do
  let cfg ← (mapLookup m "database").asList
  expandAppSpecDatabases cfg

/-- Function `expandAppSpec` (app_spec.go:321): returns the fresh zero value
`&godo.AppSpec{}` when the list is empty or its first element is the nil
interface, and otherwise builds the spec from `config[0]`. -/
def expandAppSpec (config : List DVal) : Option AppSpec :=
  match config with
  | [] => some zeroAppSpec
  | c :: _ =>
    if c.isNil then some zeroAppSpec
    else do
      let appSpecConfig ← c.asMap
      let name ← (mapLookup appSpecConfig "name").asStr
      let region ← (mapLookup appSpecConfig "region").asStr
      let domains ← readAppSpecDomains appSpecConfig
      let services ← readAppSpecServiceList appSpecConfig
      let staticSites ← readAppSpecStaticSiteList appSpecConfig
      let workers ← readAppSpecWorkerList appSpecConfig
      let databases ← readAppSpecDatabaseList appSpecConfig
      pure (AppSpec.mk name region domains services staticSites workers databases)

/-- Function `flattenAppSpec` (app_spec.go:340); the component keys are only
written when the corresponding slice is non-empty, and each component list is
stored with Go dynamic type `[]map[string]interface{}` (`DVal.mapListV`). -/
def flattenAppSpec : Option AppSpec → List AttrMap
  | none => []
  | some spec =>
    let r : AttrMap :=
      [("name", .vStr spec.Name), ("region", .vStr spec.Region),
       ("domains", .setV (flattenAppDomainSpec spec.Domains))]
    let r := if 0 < spec.Services.length then
        r ++ [("service", .mapListV (flattenAppSpecServices spec.Services))] else r
    let r := if 0 < spec.StaticSites.length then
        r ++ [("static_site", .mapListV (flattenAppSpecStaticSites spec.StaticSites))] else r
    let r := if 0 < spec.Workers.length then
        r ++ [("worker", .mapListV (flattenAppSpecWorkers spec.Workers))] else r
    let r := if 0 < spec.Databases.length then
        r ++ [("database", .mapListV (flattenAppSpecDatabases spec.Databases))] else r
    [r]

/-! ## Facts about the set model -/

theorem ssetAdd_mem (l : List DVal) (x y : DVal) : y ∈ ssetAdd l x ↔ y ∈ l ∨ y = x := by
  unfold ssetAdd
  by_cases hx : x ∈ l
  · simp only [hx, if_true]
    constructor
    · intro h
      exact Or.inl h
    · intro h
      rcases h with h | h
      · exact h
      · exact h ▸ hx
  · simp [hx]

theorem foldl_ssetAdd_mem (xs : List DVal) (acc : List DVal) (y : DVal) :
    y ∈ xs.foldl ssetAdd acc ↔ y ∈ acc ∨ y ∈ xs := by
  induction xs generalizing acc with
  | nil => simp
  | cons x xs ih =>
    rw [List.foldl_cons, ih, ssetAdd_mem]
    simp only [List.mem_cons]
    tauto

theorem ssetOfList_mem (xs : List DVal) (y : DVal) : y ∈ ssetOfList xs ↔ y ∈ xs := by
  unfold ssetOfList
  rw [foldl_ssetAdd_mem]
  simp

theorem ssetAdd_nodup (l : List DVal) (x : DVal) (h : l.Nodup) : (ssetAdd l x).Nodup := by
  unfold ssetAdd
  by_cases hx : x ∈ l
  · simpa [hx]
  · rw [if_neg hx]
    exact List.Nodup.append h (List.nodup_singleton x) (by simpa using fun hy => (hx hy).elim)

theorem foldl_ssetAdd_nodup (xs : List DVal) (acc : List DVal) (h : acc.Nodup) :
    (xs.foldl ssetAdd acc).Nodup := by
  induction xs generalizing acc with
  | nil => simpa
  | cons x xs ih =>
    rw [List.foldl_cons]
    exact ih _ (ssetAdd_nodup _ _ h)

theorem ssetOfList_nodup (xs : List DVal) : (ssetOfList xs).Nodup :=
  foldl_ssetAdd_nodup xs [] List.nodup_nil

theorem foldl_ssetAdd_of_disjoint (xs acc : List DVal) (hn : xs.Nodup)
    (hd : ∀ x ∈ xs, x ∉ acc) : xs.foldl ssetAdd acc = acc ++ xs := by
  induction xs generalizing acc with
  | nil => simp
  | cons x xs ih =>
    rw [List.foldl_cons]
    have hx : x ∉ acc := hd x (List.mem_cons_self x xs)
    have hstep : ssetAdd acc x = acc ++ [x] := by
      simp [ssetAdd, hx]
    rw [hstep, ih (acc ++ [x]) (List.Nodup.of_cons hn)]
    · simp
    · intro y hy
      simp only [List.mem_append, List.mem_singleton]
      rintro (hc | hc)
      · exact hd y (List.mem_cons_of_mem x hy) hc
      · rw [hc] at hy
        exact (List.nodup_cons.mp hn).1 hy

theorem ssetOfList_eq_self (xs : List DVal) (h : xs.Nodup) : ssetOfList xs = xs := by
  unfold ssetOfList
  rw [foldl_ssetAdd_of_disjoint xs [] h (by simp)]
  simp

/-! ## The schema declarations of `app_spec.go`

A `*schema.Schema` literal is a `SchemaNode.node`; a `*schema.Resource` is a
`SchemaNode.resource` holding its `Schema` map as an association list written
in source order (Go schema maps are unordered and only key lookup matters).
The `node` fields are, in order: value type, `Required`, `Optional`,
`Computed`, `MinItems`, `MaxItems` (0 when unset), `Description`, `Default`,
the `validation.StringInSlice(slice, ignoreCase)` data of `ValidateFunc` when
present, `Elem`, and the resource hashed by `schema.HashResource` when the
`Set` field is set. -/

/-- Terraform value types used by the app-spec schemas. -/
inductive SchemaValueType where
  | typeString
  | typeInt
  | typeBool
  | typeList
  | typeSet
  deriving DecidableEq, Repr

/-- A `*schema.Schema` (`node`) or `*schema.Resource` (`resource`) value. -/
inductive SchemaNode where
  | node (ty : SchemaValueType) (required optional computed : Bool)
      (minItems maxItems : Nat) (description : Option String)
      (defaultVal : Option DVal) (validateInSlice : Option (List String × Bool))
      (elem : Option SchemaNode) (setFn : Option SchemaNode) : SchemaNode
  | resource (fields : List (String × SchemaNode)) : SchemaNode

/-- Schema map read `m[k]`. -/
def schemaLookup (m : List (String × SchemaNode)) (k : String) : Option SchemaNode :=
  m.lookup k

/-- Go map assignment `m[k] = v`: replaces the binding when the key is
present, adds it otherwise. -/
def schemaInsert : List (String × SchemaNode) → String → SchemaNode →
    List (String × SchemaNode)
  | [], k, v => [(k, v)]
  | (k', v') :: rest, k, v =>
    if k' = k then (k, v) :: rest else (k', v') :: schemaInsert rest k v

/-- The Go pattern `for k, v := range base { m[k] = v }`: every binding of
`base` assigned into `m`.  Go iterates maps in unspecified order; the model
folds in list order, and lookups of the result do not depend on that order
when, as in every use here, the key sets are disjoint. -/
def schemaMerge (m base : List (String × SchemaNode)) : List (String × SchemaNode) :=
  base.foldl (fun acc kv => schemaInsert acc kv.1 kv.2) m

/-- Shorthand for a plain `&schema.Schema{Type: t, Optional: true}`. -/
def optionalSchema (t : SchemaValueType) : SchemaNode :=
  .node t false true false 0 0 none none none none none

/-- Function `appSpecGitSourceSchema` (app_spec.go:50). -/
def appSpecGitSourceSchema : List (String × SchemaNode) :=
  [("repo_clone_url", optionalSchema .typeString),
   ("branch", optionalSchema .typeString)]

/-- Function `appSpecGitHubSourceSchema` (app_spec.go:63). -/
def appSpecGitHubSourceSchema : List (String × SchemaNode) :=
  [("repo", optionalSchema .typeString),
   ("branch", optionalSchema .typeString),
   ("deploy_on_push", optionalSchema .typeBool)]

/-- Function `appSpecEnvSchema` (app_spec.go:80): a `*schema.Resource` whose
`scope` and `type` attributes carry defaults and `StringInSlice` validators. -/
def appSpecEnvSchema : SchemaNode :=
  .resource
    [("key", optionalSchema .typeString),
     ("value", optionalSchema .typeString),
     ("scope", .node .typeString false true false 0 0 none
        (some (.vStr "RUN_AND_BUILD_TIME"))
        (some (["UNSET", "RUN_TIME", "BUILD_TIME", "RUN_AND_BUILD_TIME"], false))
        none none),
     ("type", .node .typeString false true false 0 0 none
        (some (.vStr "GENERAL"))
        (some (["GENERAL", "SECRET"], false))
        none none)]

/-- Function `appSpecRouteSchema` (app_spec.go:115). -/
def appSpecRouteSchema : List (String × SchemaNode) :=
  [("path", .node .typeString false true false 0 0
      (some "Path specifies an route by HTTP path prefix. Paths must start with / and must be unique within the app.")
      none none none none)]

/-- Function `appSpecHealthCheckSchema` (app_spec.go:125). -/
def appSpecHealthCheckSchema : List (String × SchemaNode) :=
  [("path", .node .typeString false true false 0 0
      (some "Path is the route path used for the HTTP health check ping.")
      none none none none)]

/-- Function `appSpecComponentBase` (app_spec.go:135). -/
def appSpecComponentBase : List (String × SchemaNode) :=
  [("name", .node .typeString true false false 0 0
      (some "The name of the component") none none none none),
   ("git", .node .typeList false true false 0 1 none none none
      (some (.resource appSpecGitSourceSchema)) none),
   ("github", .node .typeList false true false 0 1 none none none
      (some (.resource appSpecGitHubSourceSchema)) none),
   ("dockerfile_path", optionalSchema .typeString),
   ("build_command", optionalSchema .typeString),
   ("env", .node .typeSet false true false 0 0 none none none
      (some appSpecEnvSchema) (some appSpecEnvSchema)),
   ("routes", .node .typeList false true true 0 1 none none none
      (some (.resource appSpecRouteSchema)) none),
   ("source_dir", optionalSchema .typeString),
   ("environment_slug", optionalSchema .typeString)]

/-- The service-specific schema literal of `appSpecServicesSchema`
(app_spec.go:193), before the base is merged in. -/
def serviceSpecificSchema : List (String × SchemaNode) :=
  [("run_command", optionalSchema .typeString),
   ("http_port", optionalSchema .typeInt),
   ("instance_size_slug", optionalSchema .typeString),
   ("instance_count", optionalSchema .typeInt),
   ("health_check", .node .typeList false true false 0 1 none none none
      (some (.resource appSpecHealthCheckSchema)) none)]

/-- Function `appSpecServicesSchema` (app_spec.go:192). -/
def appSpecServicesSchema : SchemaNode :=
  .resource (schemaMerge serviceSpecificSchema appSpecComponentBase)

/-- The static-site-specific schema literal of `appSpecStaticSiteSchema`
(app_spec.go:230), before the base is merged in. -/
def staticSiteSpecificSchema : List (String × SchemaNode) :=
  [("output_dir", .node .typeString false true false 0 0
      (some "An optional path to where the built assets will be located, relative to the build context. If not set, App Platform will automatically scan for these directory names: `_static`, `dist`, `public`.")
      none none none none),
   ("index_document", optionalSchema .typeString),
   ("error_document", optionalSchema .typeString)]

/-- Function `appSpecStaticSiteSchema` (app_spec.go:229). -/
def appSpecStaticSiteSchema : SchemaNode :=
  .resource (schemaMerge staticSiteSpecificSchema appSpecComponentBase)

/-- The worker-specific schema literal of `appSpecWorkerSchema`
(app_spec.go:256), before the base is merged in. -/
def workerSpecificSchema : List (String × SchemaNode) :=
  [("run_command", optionalSchema .typeString),
   ("instance_size_slug", optionalSchema .typeString),
   ("instance_count", optionalSchema .typeInt)]

/-- Function `appSpecWorkerSchema` (app_spec.go:255). -/
def appSpecWorkerSchema : SchemaNode :=
  .resource (schemaMerge workerSpecificSchema appSpecComponentBase)

/-- Function `appSpecDatabaseSchema` (app_spec.go:280). -/
def appSpecDatabaseSchema : SchemaNode :=
  .resource
    [("name", optionalSchema .typeString),
     ("engine", .node .typeString false true false 0 0 none none
        (some (["UNSET", "MYSQL", "PG", "REDIS"], false)) none none),
     ("version", optionalSchema .typeString),
     ("production", optionalSchema .typeBool),
     ("cluster_name", optionalSchema .typeString),
     ("db_name", optionalSchema .typeString),
     ("db_user", optionalSchema .typeString)]

/-- Function `appSpecSchema` (app_spec.go:9). -/
def appSpecSchema : List (String × SchemaNode) :=
  [("name", .node .typeString true false false 0 0
      (some "The name of the app") none none none none),
   ("region", .node .typeString false true false 0 0
      (some "The slug for the DigitalOcean data center region hosting the app")
      none none none none),
   ("domains", .node .typeSet false true false 0 0 none none none
      (some (optionalSchema .typeString)) none),
   ("service", .node .typeList false true false 1 0 none none none
      (some appSpecServicesSchema) none),
   ("static_site", .node .typeList false true false 0 0 none none none
      (some appSpecStaticSiteSchema) none),
   ("worker", .node .typeList false true false 0 0 none none none
      (some appSpecWorkerSchema) none),
   ("database", .node .typeList false true false 0 0 none none none
      (some appSpecDatabaseSchema) none)]

/-- Fields of a `*schema.Resource` node (empty for a plain schema node). -/
def SchemaNode.fields : SchemaNode → List (String × SchemaNode)
  | .resource fs => fs
  | .node _ _ _ _ _ _ _ _ _ _ _ => []

/-- Validator data of a schema node: the `StringInSlice` string list, when a
`ValidateFunc` is declared. -/
def SchemaNode.validateSlice : SchemaNode → Option (List String × Bool)
  | .node _ _ _ _ _ _ _ _ v _ _ => v
  | .resource _ => none

/-! ## The acceptance-test sweeper
(`resource_digitalocean_spaces_bucket_object_test.go`)

The sweeper runs against a live Spaces endpoint; the model represents the
environment's responses as data carried by each listed bucket: the result of
its `GetBucketLocation` call (`location`, where a nil output or nil
`LocationConstraint` is `Except.ok none`) and the result of
`deleteAllS3ObjectVersions` were it invoked (`deleteResult`, `some err` for a
failure).  `deleteAllS3ObjectVersions` itself is defined elsewhere in the
repository; the claim under verification concerns only which buckets the
sweeper invokes it on, which the model returns explicitly. -/

deriving instance DecidableEq for Except

/-- One bucket returned by `ListBuckets`, with the environment's responses. -/
structure SweepBucket where
  name : String
  location : Except String (Option String)
  deleteResult : Option String
  deriving DecidableEq, Repr

/-- Function `testS3BucketRegion` (test file line 954): region of a bucket
via `GetBucketLocation`, with `nyc3` for a missing location constraint. -/
def testS3BucketRegion (b : SweepBucket) : Except String String :=
  match b.location with
  | .error e => .error e
  | .ok none => .ok "nyc3"
  | .ok (some r) => .ok r

/-- The six acceptance-test bucket-name patterns of the sweeper
(test file line 71). -/
def sweepNamePatterns : List String :=
  ["mybucket.", "mylogs.", "tf-acc", "tf-object-test", "tf-test", "tf-emr-bootstrap"]

/-- The name test of the sweeper loop (test file lines 70 to 78):
`strings.HasPrefix(bucketName, p)` for one of the six patterns, stated on the
character lists (equivalent on valid UTF-8 text). -/
def sweepHasTestScope (bucketName : String) : Bool :=
  sweepNamePatterns.any (fun p => List.isPrefixOf p.data bucketName.data)

/-- The bucket loop of `testSweepS3BucketObjects` (test file lines 67 to 103):
returns the names of the buckets `deleteAllS3ObjectVersions` is invoked on, in
order, together with the error that aborts the sweep when a delete fails.
Buckets without a test-name pattern, buckets whose location lookup fails, and
buckets in another region are skipped with no delete call.  The steps before
the loop (session setup, `ListBuckets`, the skip-sweep and empty-listing early
returns) perform no deletion and are represented by the list of buckets the
listing returned. -/
def testSweepS3BucketObjects (region : String) : List SweepBucket → List String × Option String
  | [] => ([], none)
  | b :: rest =>
    if ¬ sweepHasTestScope b.name then testSweepS3BucketObjects region rest
    else
      match testS3BucketRegion b with
      | .error _ => testSweepS3BucketObjects region rest
      | .ok bucketRegion =>
        if bucketRegion ≠ region then testSweepS3BucketObjects region rest
        else
          match b.deleteResult with
          | some e => ([b.name], some e)
          | none =>
            let result := testSweepS3BucketObjects region rest
            (b.name :: result.1, result.2)

/-! ## Canonical well-typed configurations

A Terraform configuration map for `appSpecSchema` is well typed when every
attribute key is present with the dynamic type the expand functions assert,
and the `github`, `git`, `routes` and `health_check` blocks respect the
schema's `MaxItems: 1`.  Go maps carry no entry order, so every such map is
represented by its canonical ordering; the `...Cfg` structures below list the
field data of one such map and the `...CfgMap` functions build it. -/

/-- Data of a well-typed `github` block. -/
structure GitHubCfg where
  repo : String
  branch : String
  deployOnPush : Bool
  deriving DecidableEq, Repr

/-- The well-typed attribute map of a `github` block. -/
def gitHubCfgMap (g : GitHubCfg) : AttrMap :=
  [("repo", .vStr g.repo), ("branch", .vStr g.branch),
   ("deploy_on_push", .vBool g.deployOnPush)]

/-- The `godo.GitHubSourceSpec` a `github` block denotes. -/
def gitHubCfgSpec (g : GitHubCfg) : GitHubSourceSpec :=
  ⟨g.repo, g.branch, g.deployOnPush⟩

/-- Data of a well-typed `git` block. -/
structure GitCfg where
  branch : String
  repoCloneUrl : String
  deriving DecidableEq, Repr

/-- The well-typed attribute map of a `git` block. -/
def gitCfgMap (g : GitCfg) : AttrMap :=
  [("branch", .vStr g.branch), ("repo_clone_url", .vStr g.repoCloneUrl)]

/-- The `godo.GitSourceSpec` a `git` block denotes. -/
def gitCfgSpec (g : GitCfg) : GitSourceSpec :=
  ⟨g.branch, g.repoCloneUrl⟩

/-- Data of a well-typed `env` block. -/
structure EnvCfg where
  value : String
  scope : String
  key : String
  varType : String
  deriving DecidableEq, Repr

/-- The well-typed attribute map of an `env` block. -/
def envCfgMap (e : EnvCfg) : AttrMap :=
  [("value", .vStr e.value), ("scope", .vStr e.scope),
   ("key", .vStr e.key), ("type", .vStr e.varType)]

/-- The `godo.AppVariableDefinition` an `env` block denotes. -/
def envCfgVar (e : EnvCfg) : AppVariableDefinition :=
  ⟨e.value, e.scope, e.key, e.varType⟩

/-- A block list of at most one map (`MaxItems: 1`), as a `[]interface{}`. -/
def optBlockList {α : Type} (f : α → AttrMap) : Option α → List DVal
  | none => []
  | some x => [.mapV (f x)]

/-- Route maps of a `routes` block list. -/
def routeCfgMaps (paths : List String) : List DVal :=
  paths.map (fun p => .mapV [("path", .vStr p)])

/-- Env maps of an `env` set. -/
def envCfgMaps (envs : List EnvCfg) : List DVal :=
  envs.map (fun e => .mapV (envCfgMap e))

/-- Data of a well-typed `service` block. -/
structure SvcCfg where
  name : String
  runCommand : String
  buildCommand : String
  httpPort : Int
  dockerfilePath : String
  envs : List EnvCfg
  instanceSizeSlug : String
  instanceCount : Int
  sourceDir : String
  environmentSlug : String
  github : Option GitHubCfg
  git : Option GitCfg
  routes : List String
  healthCheck : Option String
  deriving DecidableEq, Repr

/-- The well-typed attribute map of a `service` block (canonical key order). -/
def svcCfgMap (c : SvcCfg) : AttrMap :=
  [("name", .vStr c.name),
   ("run_command", .vStr c.runCommand),
   ("build_command", .vStr c.buildCommand),
   ("github", .listV (optBlockList gitHubCfgMap c.github)),
   ("git", .listV (optBlockList gitCfgMap c.git)),
   ("http_port", .vInt c.httpPort),
   ("routes", .listV (routeCfgMaps c.routes)),
   ("dockerfile_path", .vStr c.dockerfilePath),
   ("env", .setV (envCfgMaps c.envs)),
   ("health_check", .listV (optBlockList (fun p => [("path", .vStr p)]) c.healthCheck)),
   ("instance_size_slug", .vStr c.instanceSizeSlug),
   ("instance_count", .vInt c.instanceCount),
   ("source_dir", .vStr c.sourceDir),
   ("environment_slug", .vStr c.environmentSlug)]

/-- The `godo.AppServiceSpec` a `service` block denotes. -/
def svcCfgSpec (c : SvcCfg) : AppServiceSpec :=
  ⟨c.name, c.runCommand, c.buildCommand, c.httpPort, c.dockerfilePath,
   c.envs.map envCfgVar, c.instanceSizeSlug, c.instanceCount, c.sourceDir,
   c.environmentSlug, c.github.map gitHubCfgSpec, c.git.map gitCfgSpec,
   c.routes.map AppRouteSpec.mk, c.healthCheck.map AppServiceSpecHealthCheck.mk⟩

/-- Data of a well-typed `static_site` block. -/
structure SiteCfg where
  name : String
  buildCommand : String
  dockerfilePath : String
  envs : List EnvCfg
  sourceDir : String
  outputDir : String
  indexDocument : String
  errorDocument : String
  environmentSlug : String
  github : Option GitHubCfg
  git : Option GitCfg
  routes : List String
  deriving DecidableEq, Repr

/-- The well-typed attribute map of a `static_site` block. -/
def siteCfgMap (c : SiteCfg) : AttrMap :=
  [("name", .vStr c.name),
   ("build_command", .vStr c.buildCommand),
   ("github", .listV (optBlockList gitHubCfgMap c.github)),
   ("git", .listV (optBlockList gitCfgMap c.git)),
   ("routes", .listV (routeCfgMaps c.routes)),
   ("dockerfile_path", .vStr c.dockerfilePath),
   ("env", .setV (envCfgMaps c.envs)),
   ("source_dir", .vStr c.sourceDir),
   ("output_dir", .vStr c.outputDir),
   ("index_document", .vStr c.indexDocument),
   ("error_document", .vStr c.errorDocument),
   ("environment_slug", .vStr c.environmentSlug)]

/-- The `godo.AppStaticSiteSpec` a `static_site` block denotes. -/
def siteCfgSpec (c : SiteCfg) : AppStaticSiteSpec :=
  ⟨c.name, c.buildCommand, c.dockerfilePath, c.envs.map envCfgVar, c.sourceDir,
   c.outputDir, c.indexDocument, c.errorDocument, c.environmentSlug,
   c.github.map gitHubCfgSpec, c.git.map gitCfgSpec, c.routes.map AppRouteSpec.mk⟩

/-- Data of a well-typed `worker` block. -/
structure WorkerCfg where
  name : String
  runCommand : String
  buildCommand : String
  dockerfilePath : String
  envs : List EnvCfg
  instanceSizeSlug : String
  instanceCount : Int
  sourceDir : String
  environmentSlug : String
  github : Option GitHubCfg
  git : Option GitCfg
  deriving DecidableEq, Repr

/-- The well-typed attribute map of a `worker` block. -/
def workerCfgMap (c : WorkerCfg) : AttrMap :=
  [("name", .vStr c.name),
   ("run_command", .vStr c.runCommand),
   ("build_command", .vStr c.buildCommand),
   ("github", .listV (optBlockList gitHubCfgMap c.github)),
   ("git", .listV (optBlockList gitCfgMap c.git)),
   ("dockerfile_path", .vStr c.dockerfilePath),
   ("env", .setV (envCfgMaps c.envs)),
   ("instance_size_slug", .vStr c.instanceSizeSlug),
   ("instance_count", .vInt c.instanceCount),
   ("source_dir", .vStr c.sourceDir),
   ("environment_slug", .vStr c.environmentSlug)]

/-- The `godo.AppWorkerSpec` a `worker` block denotes. -/
def workerCfgSpec (c : WorkerCfg) : AppWorkerSpec :=
  ⟨c.name, c.runCommand, c.buildCommand, c.dockerfilePath, c.envs.map envCfgVar,
   c.instanceSizeSlug, c.instanceCount, c.sourceDir, c.environmentSlug,
   c.github.map gitHubCfgSpec, c.git.map gitCfgSpec⟩

/-- Data of a well-typed `database` block; `engine` is an arbitrary string in
the configuration map. -/
structure DbCfg where
  name : String
  engine : String
  version : String
  production : Bool
  clusterName : String
  dbName : String
  dbUser : String
  deriving DecidableEq, Repr

/-- The well-typed attribute map of a `database` block. -/
def dbCfgMap (c : DbCfg) : AttrMap :=
  [("name", .vStr c.name),
   ("engine", .vStr c.engine),
   ("version", .vStr c.version),
   ("production", .vBool c.production),
   ("cluster_name", .vStr c.clusterName),
   ("db_name", .vStr c.dbName),
   ("db_user", .vStr c.dbUser)]

/-- The `godo.AppDatabaseSpec` a `database` block denotes. -/
def dbCfgSpec (c : DbCfg) : AppDatabaseSpec :=
  ⟨c.name, c.engine, c.version, c.production, c.clusterName, c.dbName, c.dbUser⟩

/-- Data of a well-typed top-level app-spec configuration map. -/
structure AppCfg where
  name : String
  region : String
  domains : List String
  services : List SvcCfg
  staticSites : List SiteCfg
  workers : List WorkerCfg
  databases : List DbCfg
  deriving DecidableEq, Repr

/-- The well-typed attribute map of an app spec (canonical key order). -/
def appCfgMap (c : AppCfg) : AttrMap :=
  [("name", .vStr c.name),
   ("region", .vStr c.region),
   ("domains", .setV (c.domains.map DVal.vStr)),
   ("service", .listV (c.services.map (fun s => .mapV (svcCfgMap s)))),
   ("static_site", .listV (c.staticSites.map (fun s => .mapV (siteCfgMap s)))),
   ("worker", .listV (c.workers.map (fun w => .mapV (workerCfgMap w)))),
   ("database", .listV (c.databases.map (fun d => .mapV (dbCfgMap d))))]

/-- The `godo.AppSpec` a well-typed configuration map denotes. -/
def appCfgSpec (c : AppCfg) : AppSpec :=
  ⟨c.name, c.region, c.domains.map AppDomainSpec.mk, c.services.map svcCfgSpec,
   c.staticSites.map siteCfgSpec, c.workers.map workerCfgSpec,
   c.databases.map dbCfgSpec⟩

/-! ## Expansion lemmas for canonical configurations -/

theorem mapOptM_map_eq {α β γ : Type} (f : β → Option γ) (g : α → β) (h : α → γ)
    (l : List α) (hfg : ∀ x ∈ l, f (g x) = some (h x)) :
    mapOptM f (l.map g) = some (l.map h) := by
  induction l with
  | nil => rfl
  | cons x xs ih =>
    simp only [List.map_cons, mapOptM, hfg x (List.mem_cons_self x xs),
      Option.bind_eq_bind, Option.some_bind,
      ih (fun y hy => hfg y (List.mem_cons_of_mem x hy))]
    rfl

theorem mapOptM_forall2 {α β γ : Type} (f : β → Option γ) (g : α → β) (R : γ → α → Prop)
    (l : List α) (h : ∀ x ∈ l, ∃ y, f (g x) = some y ∧ R y x) :
    ∃ l', mapOptM f (l.map g) = some l' ∧ List.Forall₂ R l' l := by
  induction l with
  | nil => exact ⟨[], rfl, List.Forall₂.nil⟩
  | cons x xs ih =>
    obtain ⟨y, hy, hR⟩ := h x (List.mem_cons_self x xs)
    obtain ⟨l', hl', hF⟩ := ih (fun z hz => h z (List.mem_cons_of_mem x hz))
    refine ⟨y :: l', ?_, List.Forall₂.cons hR hF⟩
    simp [mapOptM, hy, Option.bind_eq_bind, hl']

theorem expandAppEnvOne_cfg (e : EnvCfg) :
    expandAppEnvOne (.mapV (envCfgMap e)) = some (envCfgVar e) := rfl

theorem expandAppEnvs_cfg (envs : List EnvCfg) :
    expandAppEnvs (envCfgMaps envs) = some (envs.map envCfgVar) :=
  mapOptM_map_eq _ _ _ envs (fun e _ => expandAppEnvOne_cfg e)

theorem expandAppRoutes_cfg (ps : List String) :
    expandAppRoutes (routeCfgMaps ps) = some (ps.map AppRouteSpec.mk) :=
  mapOptM_map_eq _ _ _ ps (fun _ _ => rfl)

theorem expandAppDomainSpec_cfg (ds : List String) :
    expandAppDomainSpec (ds.map DVal.vStr) = some (ds.map AppDomainSpec.mk) :=
  mapOptM_map_eq _ _ _ ds (fun _ _ => rfl)

theorem readGitHubField_cfg (m : AttrMap) (og : Option GitHubCfg)
    (h : mapLookup m "github" = .listV (optBlockList gitHubCfgMap og)) :
    readGitHubField m = some (og.map gitHubCfgSpec) := by
  cases og with
  | none => simp [readGitHubField, h, optBlockList, expandSourceField]
  | some g =>
    simp [readGitHubField, h, optBlockList, expandSourceField,
      show expandAppGitHubSourceSpec [.mapV (gitHubCfgMap g)] = some (gitHubCfgSpec g) from rfl]

theorem readGitField_cfg (m : AttrMap) (og : Option GitCfg)
    (h : mapLookup m "git" = .listV (optBlockList gitCfgMap og)) :
    readGitField m = some (og.map gitCfgSpec) := by
  cases og with
  | none => simp [readGitField, h, optBlockList, expandSourceField]
  | some g =>
    simp [readGitField, h, optBlockList, expandSourceField,
      show expandAppGitSourceSpec [.mapV (gitCfgMap g)] = some (gitCfgSpec g) from rfl]

theorem readHealthCheckField_cfg (m : AttrMap) (op : Option String)
    (h : mapLookup m "health_check" = .listV (optBlockList (fun p => [("path", .vStr p)]) op)) :
    readHealthCheckField m = some (op.map AppServiceSpecHealthCheck.mk) := by
  cases op with
  | none => simp [readHealthCheckField, h, optBlockList, expandSourceField]
  | some p =>
    simp [readHealthCheckField, h, optBlockList, expandSourceField,
      show expandAppHealthCheck [.mapV [("path", .vStr p)]] =
        some (AppServiceSpecHealthCheck.mk p) from rfl]

theorem readRoutesField_cfg (m : AttrMap) (ps : List String)
    (h : mapLookup m "routes" = .listV (routeCfgMaps ps)) :
    readRoutesField m = some (ps.map AppRouteSpec.mk) := by
  cases ps with
  | nil => simp [readRoutesField, h, routeCfgMaps, expandRoutesField]
  | cons p ps =>
    have hlen : 0 < (routeCfgMaps (p :: ps)).length := by
      simp [routeCfgMaps]
    have hfield : expandRoutesField (routeCfgMaps (p :: ps)) =
        some ((p :: ps).map AppRouteSpec.mk) := by
      rw [expandRoutesField, if_pos hlen]
      exact expandAppRoutes_cfg (p :: ps)
    simp [readRoutesField, h, hfield]

theorem readComponentEnvs_cfg (m : AttrMap) (envs : List EnvCfg)
    (h : mapLookup m "env" = .setV (envCfgMaps envs)) :
    readComponentEnvs m = some (envs.map envCfgVar) := by
  simp [readComponentEnvs, h, expandAppEnvs_cfg]

theorem expandAppServiceMap_cfg (c : SvcCfg) :
    expandAppServiceMap (.mapV (svcCfgMap c)) = some (svcCfgSpec c) := by
  have hscal : readServiceScalars (svcCfgMap c) =
      some (ServiceScalars.mk c.name c.runCommand c.buildCommand c.httpPort c.dockerfilePath
        c.instanceSizeSlug c.instanceCount c.sourceDir c.environmentSlug) := rfl
  have hgithub : readGitHubField (svcCfgMap c) = some (c.github.map gitHubCfgSpec) :=
    readGitHubField_cfg _ _ (by simp [svcCfgMap])
  have hgit : readGitField (svcCfgMap c) = some (c.git.map gitCfgSpec) :=
    readGitField_cfg _ _ (by simp [svcCfgMap])
  have hroutes : readRoutesField (svcCfgMap c) = some (c.routes.map AppRouteSpec.mk) :=
    readRoutesField_cfg _ _ (by simp [svcCfgMap])
  have hhc : readHealthCheckField (svcCfgMap c) =
      some (c.healthCheck.map AppServiceSpecHealthCheck.mk) :=
    readHealthCheckField_cfg _ _ (by simp [svcCfgMap])
  have henv : readComponentEnvs (svcCfgMap c) = some (c.envs.map envCfgVar) :=
    readComponentEnvs_cfg _ _ (by simp [svcCfgMap])
  simp [expandAppServiceMap, DVal.asMap_mapV, hscal, henv, hgithub, hgit, hroutes, hhc,
    svcCfgSpec]

theorem expandAppSpecServices_cfg (cs : List SvcCfg) :
    expandAppSpecServices (cs.map (fun s => .mapV (svcCfgMap s))) =
      some (cs.map svcCfgSpec) :=
  mapOptM_map_eq _ _ _ cs (fun s _ => expandAppServiceMap_cfg s)

theorem expandAppStaticSiteMap_cfg (c : SiteCfg) :
    expandAppStaticSiteMap (.mapV (siteCfgMap c)) = some (siteCfgSpec c) := by
  have hscal : readStaticSiteScalars (siteCfgMap c) =
      some (StaticSiteScalars.mk c.name c.buildCommand c.dockerfilePath c.sourceDir
        c.outputDir c.indexDocument c.errorDocument c.environmentSlug) := rfl
  have hgithub : readGitHubField (siteCfgMap c) = some (c.github.map gitHubCfgSpec) :=
    readGitHubField_cfg _ _ (by simp [siteCfgMap])
  have hgit : readGitField (siteCfgMap c) = some (c.git.map gitCfgSpec) :=
    readGitField_cfg _ _ (by simp [siteCfgMap])
  have hroutes : readRoutesField (siteCfgMap c) = some (c.routes.map AppRouteSpec.mk) :=
    readRoutesField_cfg _ _ (by simp [siteCfgMap])
  have henv : readComponentEnvs (siteCfgMap c) = some (c.envs.map envCfgVar) :=
    readComponentEnvs_cfg _ _ (by simp [siteCfgMap])
  simp [expandAppStaticSiteMap, DVal.asMap_mapV, hscal, henv, hgithub, hgit, hroutes,
    siteCfgSpec]

theorem expandAppSpecStaticSites_cfg (cs : List SiteCfg) :
    expandAppSpecStaticSites (cs.map (fun s => .mapV (siteCfgMap s))) =
      some (cs.map siteCfgSpec) :=
  mapOptM_map_eq _ _ _ cs (fun s _ => expandAppStaticSiteMap_cfg s)

theorem expandAppWorkerMap_cfg (c : WorkerCfg) :
    expandAppWorkerMap (.mapV (workerCfgMap c)) = some (workerCfgSpec c) := by
  have hscal : readWorkerScalars (workerCfgMap c) =
      some (WorkerScalars.mk c.name c.runCommand c.buildCommand c.dockerfilePath
        c.instanceSizeSlug c.instanceCount c.sourceDir c.environmentSlug) := rfl
  have hgithub : readGitHubField (workerCfgMap c) = some (c.github.map gitHubCfgSpec) :=
    readGitHubField_cfg _ _ (by simp [workerCfgMap])
  have hgit : readGitField (workerCfgMap c) = some (c.git.map gitCfgSpec) :=
    readGitField_cfg _ _ (by simp [workerCfgMap])
  have henv : readComponentEnvs (workerCfgMap c) = some (c.envs.map envCfgVar) :=
    readComponentEnvs_cfg _ _ (by simp [workerCfgMap])
  simp [expandAppWorkerMap, DVal.asMap_mapV, hscal, henv, hgithub, hgit, workerCfgSpec]

theorem expandAppSpecWorkers_cfg (cs : List WorkerCfg) :
    expandAppSpecWorkers (cs.map (fun w => .mapV (workerCfgMap w))) =
      some (cs.map workerCfgSpec) :=
  mapOptM_map_eq _ _ _ cs (fun w _ => expandAppWorkerMap_cfg w)

theorem expandAppSpecDatabases_cfg (cs : List DbCfg) :
    expandAppSpecDatabases (cs.map (fun d => .mapV (dbCfgMap d))) =
      some (cs.map dbCfgSpec) :=
  mapOptM_map_eq _ _ _ cs (fun _ _ => rfl)

theorem expandAppSpec_cfg (c : AppCfg) :
    expandAppSpec [.mapV (appCfgMap c)] = some (appCfgSpec c) := by
  have hdomains : readAppSpecDomains (appCfgMap c) = some (c.domains.map AppDomainSpec.mk) := by
    simp only [readAppSpecDomains, show mapLookup (appCfgMap c) "domains" =
      .setV (c.domains.map DVal.vStr) by simp [appCfgMap], DVal.asSetList_setV,
      Option.bind_eq_bind, Option.some_bind]
    exact expandAppDomainSpec_cfg c.domains
  have hsvc : readAppSpecServiceList (appCfgMap c) = some (c.services.map svcCfgSpec) := by
    simp only [readAppSpecServiceList, show mapLookup (appCfgMap c) "service" =
      .listV (c.services.map (fun s => .mapV (svcCfgMap s))) by simp [appCfgMap],
      DVal.asList_listV, Option.bind_eq_bind, Option.some_bind]
    exact expandAppSpecServices_cfg c.services
  have hsite : readAppSpecStaticSiteList (appCfgMap c) = some (c.staticSites.map siteCfgSpec) := by
    simp only [readAppSpecStaticSiteList, show mapLookup (appCfgMap c) "static_site" =
      .listV (c.staticSites.map (fun s => .mapV (siteCfgMap s))) by simp [appCfgMap],
      DVal.asList_listV, Option.bind_eq_bind, Option.some_bind]
    exact expandAppSpecStaticSites_cfg c.staticSites
  have hworker : readAppSpecWorkerList (appCfgMap c) = some (c.workers.map workerCfgSpec) := by
    simp only [readAppSpecWorkerList, show mapLookup (appCfgMap c) "worker" =
      .listV (c.workers.map (fun w => .mapV (workerCfgMap w))) by simp [appCfgMap],
      DVal.asList_listV, Option.bind_eq_bind, Option.some_bind]
    exact expandAppSpecWorkers_cfg c.workers
  have hdb : readAppSpecDatabaseList (appCfgMap c) = some (c.databases.map dbCfgSpec) := by
    simp only [readAppSpecDatabaseList, show mapLookup (appCfgMap c) "database" =
      .listV (c.databases.map (fun d => .mapV (dbCfgMap d))) by simp [appCfgMap],
      DVal.asList_listV, Option.bind_eq_bind, Option.some_bind]
    exact expandAppSpecDatabases_cfg c.databases
  have hnil : (DVal.mapV (appCfgMap c)).isNil = false := rfl
  have hname : mapLookup (appCfgMap c) "name" = .vStr c.name := by
    simp [appCfgMap]
  have hregion : mapLookup (appCfgMap c) "region" = .vStr c.region := by
    simp [appCfgMap]
  simp only [expandAppSpec, hnil, Bool.false_eq_true, if_false, DVal.asMap_mapV,
    Option.bind_eq_bind, Option.some_bind, hname, hregion, DVal.asStr,
    hdomains, hsvc, hsite, hworker, hdb, appCfgSpec]
  rfl

/-! ## Flatten lemmas for canonical configurations -/

theorem flattenAppGitHub_cfg (og : Option GitHubCfg) :
    flattenAppGitHubSourceSpec (og.map gitHubCfgSpec) = optBlockList gitHubCfgMap og := by
  cases og <;> rfl

theorem flattenAppGit_cfg (og : Option GitCfg) :
    flattenAppGitSourceSpec (og.map gitCfgSpec) = optBlockList gitCfgMap og := by
  cases og <;> rfl

theorem flattenAppHealthCheck_cfg (op : Option String) :
    flattenAppHealthCheck (op.map AppServiceSpecHealthCheck.mk) =
      optBlockList (fun p => [("path", .vStr p)]) op := by
  cases op <;> rfl

theorem flattenAppRoutes_cfg (ps : List String) :
    flattenAppRoutes (ps.map AppRouteSpec.mk) = routeCfgMaps ps := by
  simp [flattenAppRoutes, routeCfgMaps, List.map_map, Function.comp]

theorem envCfgMap_mapV_injective : Function.Injective (fun e => DVal.mapV (envCfgMap e)) := by
  intro a b h
  cases a
  cases b
  simpa [envCfgMap, DVal.mapV_inj] using h

theorem flattenAppEnvs_cfg (envs : List EnvCfg) (h : envs.Nodup) :
    flattenAppEnvs (envs.map envCfgVar) = envCfgMaps envs := by
  rw [flattenAppEnvs, List.map_map]
  have hcomp : (fun env => DVal.mapV (flattenAppEnvMap env)) ∘ envCfgVar =
      fun e => DVal.mapV (envCfgMap e) := rfl
  rw [hcomp]
  exact ssetOfList_eq_self _ (h.map envCfgMap_mapV_injective)

theorem flattenAppServiceMap_cfg (c : SvcCfg) (h : c.envs.Nodup) :
    flattenAppServiceMap (svcCfgSpec c) = svcCfgMap c := by
  simp [flattenAppServiceMap, svcCfgSpec, svcCfgMap, flattenAppGitHub_cfg, flattenAppGit_cfg,
    flattenAppRoutes_cfg, flattenAppHealthCheck_cfg, flattenAppEnvs_cfg c.envs h]

theorem flattenAppStaticSiteMap_cfg (c : SiteCfg) (h : c.envs.Nodup) :
    flattenAppStaticSiteMap (siteCfgSpec c) = siteCfgMap c := by
  simp [flattenAppStaticSiteMap, siteCfgSpec, siteCfgMap, flattenAppGitHub_cfg,
    flattenAppGit_cfg, flattenAppRoutes_cfg, flattenAppEnvs_cfg c.envs h]

theorem flattenAppWorkerMap_cfg (c : WorkerCfg) (h : c.envs.Nodup) :
    flattenAppWorkerMap (workerCfgSpec c) = workerCfgMap c := by
  simp [flattenAppWorkerMap, workerCfgSpec, workerCfgMap, flattenAppGitHub_cfg,
    flattenAppGit_cfg, flattenAppEnvs_cfg c.envs h]

/-- The map `flattenAppSpecDatabases` rebuilds for a `database` block: the
block's own map except that the `engine` value carries the Go dynamic type
`godo.AppDatabaseSpecEngine` instead of `string`. -/
def dbCfgFlatMap (c : DbCfg) : AttrMap :=
  [("name", .vStr c.name),
   ("engine", .vEngine c.engine),
   ("version", .vStr c.version),
   ("production", .vBool c.production),
   ("cluster_name", .vStr c.clusterName),
   ("db_name", .vStr c.dbName),
   ("db_user", .vStr c.dbUser)]

theorem flattenAppDatabaseMap_cfg (c : DbCfg) :
    flattenAppDatabaseMap (dbCfgSpec c) = dbCfgFlatMap c := rfl

theorem vStr_injective : Function.Injective DVal.vStr := by
  intro a b h
  exact DVal.vStr.inj h

theorem flattenAppDomainSpec_cfg (ds : List String) (h : ds.Nodup) :
    flattenAppDomainSpec (ds.map AppDomainSpec.mk) = ds.map DVal.vStr := by
  rw [flattenAppDomainSpec, List.map_map]
  have hcomp : (fun domain => DVal.vStr domain.Domain) ∘ AppDomainSpec.mk = DVal.vStr := rfl
  rw [hcomp]
  exact ssetOfList_eq_self _ (h.map vStr_injective)

/-- The singleton map `flattenAppSpec` rebuilds from the spec a well-typed
configuration map denotes: the configuration map itself, except that the
`service`, `static_site`, `worker` and `database` keys are dropped when their
block lists are empty, the remaining component lists carry the Go dynamic
type `[]map[string]interface{}` instead of `[]interface{}`, and each database
`engine` value carries `godo.AppDatabaseSpecEngine` instead of `string`. -/
def appCfgFlatMap (c : AppCfg) : AttrMap :=
  [("name", .vStr c.name), ("region", .vStr c.region),
   ("domains", .setV (c.domains.map DVal.vStr))]
  ++ (if 0 < c.services.length then
        [("service", .mapListV (c.services.map svcCfgMap))] else [])
  ++ (if 0 < c.staticSites.length then
        [("static_site", .mapListV (c.staticSites.map siteCfgMap))] else [])
  ++ (if 0 < c.workers.length then
        [("worker", .mapListV (c.workers.map workerCfgMap))] else [])
  ++ (if 0 < c.databases.length then
        [("database", .mapListV (c.databases.map dbCfgFlatMap))] else [])

theorem flattenAppSpec_cfg (c : AppCfg) (hdom : c.domains.Nodup)
    (hsvc : ∀ s ∈ c.services, s.envs.Nodup)
    (hsite : ∀ s ∈ c.staticSites, s.envs.Nodup)
    (hwork : ∀ w ∈ c.workers, w.envs.Nodup) :
    flattenAppSpec (some (appCfgSpec c)) = [appCfgFlatMap c] := by
  have hdomains : flattenAppDomainSpec ((appCfgSpec c).Domains) = c.domains.map DVal.vStr := by
    simpa [appCfgSpec] using flattenAppDomainSpec_cfg c.domains hdom
  have hservices : flattenAppSpecServices ((appCfgSpec c).Services) =
      c.services.map svcCfgMap := by
    simp only [appCfgSpec, flattenAppSpecServices, List.map_map]
    exact List.map_congr_left (fun s hs => flattenAppServiceMap_cfg s (hsvc s hs))
  have hsites : flattenAppSpecStaticSites ((appCfgSpec c).StaticSites) =
      c.staticSites.map siteCfgMap := by
    simp only [appCfgSpec, flattenAppSpecStaticSites, List.map_map]
    exact List.map_congr_left (fun s hs => flattenAppStaticSiteMap_cfg s (hsite s hs))
  have hworkers : flattenAppSpecWorkers ((appCfgSpec c).Workers) =
      c.workers.map workerCfgMap := by
    simp only [appCfgSpec, flattenAppSpecWorkers, List.map_map]
    exact List.map_congr_left (fun w hw => flattenAppWorkerMap_cfg w (hwork w hw))
  have hdbs : flattenAppSpecDatabases ((appCfgSpec c).Databases) =
      c.databases.map dbCfgFlatMap := by
    simp only [appCfgSpec, flattenAppSpecDatabases, List.map_map]
    rfl
  have hlen1 : (appCfgSpec c).Services.length = c.services.length := by
    simp [appCfgSpec]
  have hlen2 : (appCfgSpec c).StaticSites.length = c.staticSites.length := by
    simp [appCfgSpec]
  have hlen3 : (appCfgSpec c).Workers.length = c.workers.length := by
    simp [appCfgSpec]
  have hlen4 : (appCfgSpec c).Databases.length = c.databases.length := by
    simp [appCfgSpec]
  have hname : (appCfgSpec c).Name = c.name := rfl
  have hregion : (appCfgSpec c).Region = c.region := rfl
  rw [flattenAppSpec, hdomains, hservices, hsites, hworkers, hdbs, hlen1, hlen2, hlen3,
    hlen4, hname, hregion, appCfgFlatMap]
  by_cases h1 : 0 < c.services.length <;> by_cases h2 : 0 < c.staticSites.length <;>
    by_cases h3 : 0 < c.workers.length <;> by_cases h4 : 0 < c.databases.length <;>
    simp [h1, h2, h3, h4]

/-! ## State normalization

`expandAppSpec` and `flattenAppSpec` do not compose directly as Go functions:
the flattened map stores component lists as `[]map[string]interface{}` and
omits empty ones, while the expand side asserts `[]interface{}` for keys that
must be present.  In the provider the flattened map travels through Terraform
state, which re-types what `d.Get` hands back to `expandAppSpec`.
`normAppSpecState` is that engine-side conversion: each component list is
re-read as `[]interface{}` of maps, an absent list attribute reads as the
empty list, and a `godo.AppDatabaseSpecEngine` value reads back as its
underlying string. -/

/-- Engine-side re-reading of one map entry. -/
def stateReadEntry (kv : String × DVal) : String × DVal :=
  (kv.1, match kv.2 with
    | .vEngine s => .vStr s
    | v => v)

/-- Engine-side re-reading of a list attribute. -/
def stateReadList : DVal → DVal
  | .vMapList l => .listV (l.toList.map (fun m => .mapV (m.map stateReadEntry)))
  | .vNil => .listV []
  | v => v

/-- Engine-side re-reading of a flattened app-spec map through
`appSpecSchema`. -/
def normAppSpecState (r : AttrMap) : AttrMap :=
  [("name", mapLookup r "name"),
   ("region", mapLookup r "region"),
   ("domains", mapLookup r "domains"),
   ("service", stateReadList (mapLookup r "service")),
   ("static_site", stateReadList (mapLookup r "static_site")),
   ("worker", stateReadList (mapLookup r "worker")),
   ("database", stateReadList (mapLookup r "database"))]

/-- Equality of env lists as sets (the `env` attribute is a `schema.Set`). -/
def EnvSetEq (xs ys : List AppVariableDefinition) : Prop :=
  ∀ e, e ∈ xs ↔ e ∈ ys

/-- A recovered service equals the original except that its env list is only
guaranteed equal as a set (the set round trip collapses duplicates). -/
def ServiceMatch (a b : AppServiceSpec) : Prop :=
  EnvSetEq a.Envs b.Envs ∧ a = { b with Envs := a.Envs }

/-- Static-site analogue of `ServiceMatch`. -/
def SiteMatch (a b : AppStaticSiteSpec) : Prop :=
  EnvSetEq a.Envs b.Envs ∧ a = { b with Envs := a.Envs }

/-- Worker analogue of `ServiceMatch`. -/
def WorkerMatch (a b : AppWorkerSpec) : Prop :=
  EnvSetEq a.Envs b.Envs ∧ a = { b with Envs := a.Envs }

/-- Total extraction used to name the result of a successful env expansion. -/
def envOfDVal (x : DVal) : AppVariableDefinition :=
  (expandAppEnvOne x).getD ⟨"", "", "", ""⟩

theorem expandAppEnvs_flatten (envs : List AppVariableDefinition) :
    ∃ envs', expandAppEnvs (flattenAppEnvs envs) = some envs' ∧ EnvSetEq envs' envs := by
  have hform : ∀ x ∈ flattenAppEnvs envs, ∃ e ∈ envs, x = .mapV (flattenAppEnvMap e) := by
    intro x hx
    rw [flattenAppEnvs, ssetOfList_mem] at hx
    obtain ⟨e, he, hxe⟩ := List.mem_map.mp hx
    exact ⟨e, he, hxe.symm⟩
  have hsome : ∀ x ∈ flattenAppEnvs envs, expandAppEnvOne x = some (envOfDVal x) := by
    intro x hx
    obtain ⟨e, _, hxe⟩ := hform x hx
    subst hxe
    rfl
  refine ⟨(flattenAppEnvs envs).map envOfDVal, mapOptM_eq_map _ _ _ hsome, ?_⟩
  intro v
  constructor
  · intro hv
    obtain ⟨x, hx, hxv⟩ := List.mem_map.mp hv
    obtain ⟨e, he, hxe⟩ := hform x hx
    subst hxe
    have : envOfDVal (.mapV (flattenAppEnvMap e)) = e := rfl
    rw [this] at hxv
    exact hxv ▸ he
  · intro hv
    have hx : (DVal.mapV (flattenAppEnvMap v)) ∈ flattenAppEnvs envs := by
      rw [flattenAppEnvs, ssetOfList_mem]
      exact List.mem_map.mpr ⟨v, hv, rfl⟩
    refine List.mem_map.mpr ⟨.mapV (flattenAppEnvMap v), hx, rfl⟩

/-- Total extraction used to name the result of a successful domain
expansion. -/
def domainOfDVal (x : DVal) : AppDomainSpec :=
  (expandAppDomainOne x).getD ⟨""⟩

theorem expandAppDomainSpec_flatten (dl : List AppDomainSpec) :
    ∃ dl', expandAppDomainSpec (flattenAppDomainSpec dl) = some dl' ∧
      ∀ d, d ∈ dl' ↔ d ∈ dl := by
  have hform : ∀ x ∈ flattenAppDomainSpec dl, ∃ d ∈ dl, x = .vStr d.Domain := by
    intro x hx
    rw [flattenAppDomainSpec, ssetOfList_mem] at hx
    obtain ⟨d, hd, hxd⟩ := List.mem_map.mp hx
    exact ⟨d, hd, hxd.symm⟩
  have hsome : ∀ x ∈ flattenAppDomainSpec dl, expandAppDomainOne x = some (domainOfDVal x) := by
    intro x hx
    obtain ⟨d, _, hxd⟩ := hform x hx
    subst hxd
    rfl
  refine ⟨(flattenAppDomainSpec dl).map domainOfDVal, mapOptM_eq_map _ _ _ hsome, ?_⟩
  intro v
  constructor
  · intro hv
    obtain ⟨x, hx, hxv⟩ := List.mem_map.mp hv
    obtain ⟨d, hd, hxd⟩ := hform x hx
    subst hxd
    have : domainOfDVal (.vStr d.Domain) = d := rfl
    rw [this] at hxv
    exact hxv ▸ hd
  · intro hv
    have hx : (DVal.vStr v.Domain) ∈ flattenAppDomainSpec dl := by
      rw [flattenAppDomainSpec, ssetOfList_mem]
      exact List.mem_map.mpr ⟨v, hv, rfl⟩
    refine List.mem_map.mpr ⟨.vStr v.Domain, hx, ?_⟩
    rfl

theorem readGitHubField_flatten (m : AttrMap) (og : Option GitHubSourceSpec)
    (h : mapLookup m "github" = .listV (flattenAppGitHubSourceSpec og)) :
    readGitHubField m = some og := by
  cases og with
  | none => simp [readGitHubField, h, flattenAppGitHubSourceSpec, expandSourceField]
  | some g =>
    simp [readGitHubField, h, flattenAppGitHubSourceSpec, expandSourceField,
      show expandAppGitHubSourceSpec [.mapV [("repo", .vStr g.Repo),
        ("branch", .vStr g.Branch), ("deploy_on_push", .vBool g.DeployOnPush)]] =
        some g from rfl]

theorem readGitField_flatten (m : AttrMap) (og : Option GitSourceSpec)
    (h : mapLookup m "git" = .listV (flattenAppGitSourceSpec og)) :
    readGitField m = some og := by
  cases og with
  | none => simp [readGitField, h, flattenAppGitSourceSpec, expandSourceField]
  | some g =>
    simp [readGitField, h, flattenAppGitSourceSpec, expandSourceField,
      show expandAppGitSourceSpec [.mapV [("branch", .vStr g.Branch),
        ("repo_clone_url", .vStr g.RepoCloneURL)]] = some g from rfl]

theorem readHealthCheckField_flatten (m : AttrMap) (oc : Option AppServiceSpecHealthCheck)
    (h : mapLookup m "health_check" = .listV (flattenAppHealthCheck oc)) :
    readHealthCheckField m = some oc := by
  cases oc with
  | none => simp [readHealthCheckField, h, flattenAppHealthCheck, expandSourceField]
  | some hc =>
    simp [readHealthCheckField, h, flattenAppHealthCheck, expandSourceField,
      show expandAppHealthCheck [.mapV [("path", .vStr hc.Path)]] = some hc from rfl]

theorem expandAppRoutes_flatten (rs : List AppRouteSpec) :
    expandAppRoutes (flattenAppRoutes rs) = some rs := by
  have h : ∀ x ∈ rs, expandAppRouteOne ((fun route => DVal.mapV [("path", .vStr route.Path)]) x) =
      some (id x) := by
    intro x _
    rfl
  simpa [flattenAppRoutes, expandAppRoutes] using
    mapOptM_map_eq expandAppRouteOne (fun route => DVal.mapV [("path", .vStr route.Path)])
      id rs h

theorem readRoutesField_flatten (m : AttrMap) (rs : List AppRouteSpec)
    (h : mapLookup m "routes" = .listV (flattenAppRoutes rs)) :
    readRoutesField m = some rs := by
  cases rs with
  | nil => simp [readRoutesField, h, flattenAppRoutes, expandRoutesField]
  | cons r rest =>
    have hlen : 0 < (flattenAppRoutes (r :: rest)).length := by
      simp [flattenAppRoutes]
    have hfield : expandRoutesField (flattenAppRoutes (r :: rest)) = some (r :: rest) := by
      rw [expandRoutesField, if_pos hlen]
      exact expandAppRoutes_flatten (r :: rest)
    simp [readRoutesField, h, hfield]

theorem readComponentEnvs_flatten (m : AttrMap) (envs : List AppVariableDefinition)
    (h : mapLookup m "env" = .setV (flattenAppEnvs envs)) :
    ∃ envs', readComponentEnvs m = some envs' ∧ EnvSetEq envs' envs := by
  obtain ⟨envs', he, hiff⟩ := expandAppEnvs_flatten envs
  exact ⟨envs', by simp [readComponentEnvs, h, he], hiff⟩

theorem expandAppServiceMap_flatten (sv : AppServiceSpec) :
    ∃ sv', expandAppServiceMap (.mapV (flattenAppServiceMap sv)) = some sv' ∧
      ServiceMatch sv' sv := by
  obtain ⟨envs', henv, hiff⟩ := readComponentEnvs_flatten (flattenAppServiceMap sv) sv.Envs
    (by simp [flattenAppServiceMap])
  have hscal : readServiceScalars (flattenAppServiceMap sv) =
      some (ServiceScalars.mk sv.Name sv.RunCommand sv.BuildCommand sv.HTTPPort
        sv.DockerfilePath sv.InstanceSizeSlug sv.InstanceCount sv.SourceDir
        sv.EnvironmentSlug) := rfl
  have hgithub : readGitHubField (flattenAppServiceMap sv) = some sv.GitHub :=
    readGitHubField_flatten _ _ (by simp [flattenAppServiceMap])
  have hgit : readGitField (flattenAppServiceMap sv) = some sv.Git :=
    readGitField_flatten _ _ (by simp [flattenAppServiceMap])
  have hroutes : readRoutesField (flattenAppServiceMap sv) = some sv.Routes :=
    readRoutesField_flatten _ _ (by simp [flattenAppServiceMap])
  have hhc : readHealthCheckField (flattenAppServiceMap sv) = some sv.HealthCheck :=
    readHealthCheckField_flatten _ _ (by simp [flattenAppServiceMap])
  refine ⟨AppServiceSpec.mk sv.Name sv.RunCommand sv.BuildCommand sv.HTTPPort
    sv.DockerfilePath envs' sv.InstanceSizeSlug sv.InstanceCount sv.SourceDir
    sv.EnvironmentSlug sv.GitHub sv.Git sv.Routes sv.HealthCheck, ?_, hiff, rfl⟩
  simp [expandAppServiceMap, DVal.asMap_mapV, hscal, henv, hgithub, hgit, hroutes, hhc]

theorem expandAppStaticSiteMap_flatten (sv : AppStaticSiteSpec) :
    ∃ sv', expandAppStaticSiteMap (.mapV (flattenAppStaticSiteMap sv)) = some sv' ∧
      SiteMatch sv' sv := by
  obtain ⟨envs', henv, hiff⟩ := readComponentEnvs_flatten (flattenAppStaticSiteMap sv) sv.Envs
    (by simp [flattenAppStaticSiteMap])
  have hscal : readStaticSiteScalars (flattenAppStaticSiteMap sv) =
      some (StaticSiteScalars.mk sv.Name sv.BuildCommand sv.DockerfilePath sv.SourceDir
        sv.OutputDir sv.IndexDocument sv.ErrorDocument sv.EnvironmentSlug) := rfl
  have hgithub : readGitHubField (flattenAppStaticSiteMap sv) = some sv.GitHub :=
    readGitHubField_flatten _ _ (by simp [flattenAppStaticSiteMap])
  have hgit : readGitField (flattenAppStaticSiteMap sv) = some sv.Git :=
    readGitField_flatten _ _ (by simp [flattenAppStaticSiteMap])
  have hroutes : readRoutesField (flattenAppStaticSiteMap sv) = some sv.Routes :=
    readRoutesField_flatten _ _ (by simp [flattenAppStaticSiteMap])
  refine ⟨AppStaticSiteSpec.mk sv.Name sv.BuildCommand sv.DockerfilePath envs'
    sv.SourceDir sv.OutputDir sv.IndexDocument sv.ErrorDocument sv.EnvironmentSlug
    sv.GitHub sv.Git sv.Routes, ?_, hiff, rfl⟩
  simp [expandAppStaticSiteMap, DVal.asMap_mapV, hscal, henv, hgithub, hgit, hroutes]

theorem expandAppWorkerMap_flatten (w : AppWorkerSpec) :
    ∃ w', expandAppWorkerMap (.mapV (flattenAppWorkerMap w)) = some w' ∧
      WorkerMatch w' w := by
  obtain ⟨envs', henv, hiff⟩ := readComponentEnvs_flatten (flattenAppWorkerMap w) w.Envs
    (by simp [flattenAppWorkerMap])
  have hscal : readWorkerScalars (flattenAppWorkerMap w) =
      some (WorkerScalars.mk w.Name w.RunCommand w.BuildCommand w.DockerfilePath
        w.InstanceSizeSlug w.InstanceCount w.SourceDir w.EnvironmentSlug) := rfl
  have hgithub : readGitHubField (flattenAppWorkerMap w) = some w.GitHub :=
    readGitHubField_flatten _ _ (by simp [flattenAppWorkerMap])
  have hgit : readGitField (flattenAppWorkerMap w) = some w.Git :=
    readGitField_flatten _ _ (by simp [flattenAppWorkerMap])
  refine ⟨AppWorkerSpec.mk w.Name w.RunCommand w.BuildCommand w.DockerfilePath envs'
    w.InstanceSizeSlug w.InstanceCount w.SourceDir w.EnvironmentSlug w.GitHub w.Git,
    ?_, hiff, rfl⟩
  simp [expandAppWorkerMap, DVal.asMap_mapV, hscal, henv, hgithub, hgit]

theorem expandAppDatabaseMap_flatten_norm (db : AppDatabaseSpec) :
    expandAppDatabaseMap (.mapV ((flattenAppDatabaseMap db).map stateReadEntry)) =
      some db := rfl

theorem mapLookup_append_right (m1 m2 : AttrMap) (k : String)
    (h : List.lookup k m1 = none) : mapLookup (m1 ++ m2) k = mapLookup m2 k := by
  induction m1 with
  | nil => simp
  | cons kv rest ih =>
    obtain ⟨k', v⟩ := kv
    by_cases hk : k = k'
    · subst hk
      simp [List.lookup] at h
    · rw [List.cons_append, mapLookup_cons_ne _ _ _ _ hk]
      refine ih ?_
      rw [List.lookup] at h
      have hb : (k == k') = false := by
        simpa using hk
      rw [hb] at h
      exact h

/-- The single map `flattenAppSpec` builds for a non-nil spec. -/
def flattenAppSpecMapOf (s : AppSpec) : AttrMap :=
  [("name", .vStr s.Name), ("region", .vStr s.Region),
   ("domains", .setV (flattenAppDomainSpec s.Domains))]
  ++ (if 0 < s.Services.length then
        [("service", .mapListV (flattenAppSpecServices s.Services))] else [])
  ++ (if 0 < s.StaticSites.length then
        [("static_site", .mapListV (flattenAppSpecStaticSites s.StaticSites))] else [])
  ++ (if 0 < s.Workers.length then
        [("worker", .mapListV (flattenAppSpecWorkers s.Workers))] else [])
  ++ (if 0 < s.Databases.length then
        [("database", .mapListV (flattenAppSpecDatabases s.Databases))] else [])

theorem flattenAppSpec_some (s : AppSpec) :
    flattenAppSpec (some s) = [flattenAppSpecMapOf s] := by
  rw [flattenAppSpec, flattenAppSpecMapOf]
  by_cases h1 : 0 < s.Services.length <;> by_cases h2 : 0 < s.StaticSites.length <;>
    by_cases h3 : 0 < s.Workers.length <;> by_cases h4 : 0 < s.Databases.length <;>
    simp [h1, h2, h3, h4]

theorem lookup_condSegment_ne (c : Prop) [Decidable c] (k1 k : String) (v : DVal)
    (h : (k == k1) = false) :
    List.lookup k (if c then [(k1, v)] else []) = none := by
  split <;> simp [List.lookup, h]

theorem lookup_flatMapOf_name (s : AppSpec) :
    mapLookup (flattenAppSpecMapOf s) "name" = .vStr s.Name := by
  simp [flattenAppSpecMapOf]

theorem lookup_flatMapOf_region (s : AppSpec) :
    mapLookup (flattenAppSpecMapOf s) "region" = .vStr s.Region := by
  simp [flattenAppSpecMapOf]

theorem lookup_flatMapOf_domains (s : AppSpec) :
    mapLookup (flattenAppSpecMapOf s) "domains" = .setV (flattenAppDomainSpec s.Domains) := by
  simp [flattenAppSpecMapOf]

theorem mapLookup_condSegment_ne (c : Prop) [Decidable c] (k1 k : String) (v : DVal)
    (h : (k == k1) = false) :
    mapLookup (if c then [(k1, v)] else []) k = .vNil := by
  split <;> simp [mapLookup, List.lookup, h]

theorem lookup_flatMapOf_service (s : AppSpec) :
    mapLookup (flattenAppSpecMapOf s) "service" =
      (if 0 < s.Services.length then
        .mapListV (flattenAppSpecServices s.Services) else .vNil) := by
  simp only [flattenAppSpecMapOf, List.append_assoc, List.cons_append, List.nil_append]
  rw [mapLookup_cons_ne _ _ _ _ (by decide), mapLookup_cons_ne _ _ _ _ (by decide),
    mapLookup_cons_ne _ _ _ _ (by decide)]
  by_cases h1 : 0 < s.Services.length
  · rw [if_pos h1, if_pos h1, List.cons_append, mapLookup_cons_self]
  · rw [if_neg h1, if_neg h1, List.nil_append]
    rw [mapLookup_append_right _ _ _ (lookup_condSegment_ne _ _ _ _ (by decide)),
      mapLookup_append_right _ _ _ (lookup_condSegment_ne _ _ _ _ (by decide))]
    exact mapLookup_condSegment_ne _ _ _ _ (by decide)

theorem lookup_flatMapOf_staticSite (s : AppSpec) :
    mapLookup (flattenAppSpecMapOf s) "static_site" =
      (if 0 < s.StaticSites.length then
        .mapListV (flattenAppSpecStaticSites s.StaticSites) else .vNil) := by
  simp only [flattenAppSpecMapOf, List.append_assoc, List.cons_append, List.nil_append]
  rw [mapLookup_cons_ne _ _ _ _ (by decide), mapLookup_cons_ne _ _ _ _ (by decide),
    mapLookup_cons_ne _ _ _ _ (by decide)]
  rw [mapLookup_append_right _ _ _ (lookup_condSegment_ne _ _ _ _ (by decide))]
  by_cases h2 : 0 < s.StaticSites.length
  · rw [if_pos h2, if_pos h2, List.cons_append, mapLookup_cons_self]
  · rw [if_neg h2, if_neg h2, List.nil_append]
    rw [mapLookup_append_right _ _ _ (lookup_condSegment_ne _ _ _ _ (by decide))]
    exact mapLookup_condSegment_ne _ _ _ _ (by decide)

theorem lookup_flatMapOf_worker (s : AppSpec) :
    mapLookup (flattenAppSpecMapOf s) "worker" =
      (if 0 < s.Workers.length then
        .mapListV (flattenAppSpecWorkers s.Workers) else .vNil) := by
  simp only [flattenAppSpecMapOf, List.append_assoc, List.cons_append, List.nil_append]
  rw [mapLookup_cons_ne _ _ _ _ (by decide), mapLookup_cons_ne _ _ _ _ (by decide),
    mapLookup_cons_ne _ _ _ _ (by decide)]
  rw [mapLookup_append_right _ _ _ (lookup_condSegment_ne _ _ _ _ (by decide)),
    mapLookup_append_right _ _ _ (lookup_condSegment_ne _ _ _ _ (by decide))]
  by_cases h3 : 0 < s.Workers.length
  · rw [if_pos h3, if_pos h3, List.cons_append, mapLookup_cons_self]
  · rw [if_neg h3, if_neg h3, List.nil_append]
    exact mapLookup_condSegment_ne _ _ _ _ (by decide)

theorem lookup_flatMapOf_database (s : AppSpec) :
    mapLookup (flattenAppSpecMapOf s) "database" =
      (if 0 < s.Databases.length then
        .mapListV (flattenAppSpecDatabases s.Databases) else .vNil) := by
  simp only [flattenAppSpecMapOf, List.append_assoc, List.cons_append, List.nil_append]
  rw [mapLookup_cons_ne _ _ _ _ (by decide), mapLookup_cons_ne _ _ _ _ (by decide),
    mapLookup_cons_ne _ _ _ _ (by decide)]
  rw [mapLookup_append_right _ _ _ (lookup_condSegment_ne _ _ _ _ (by decide)),
    mapLookup_append_right _ _ _ (lookup_condSegment_ne _ _ _ _ (by decide)),
    mapLookup_append_right _ _ _ (lookup_condSegment_ne _ _ _ _ (by decide))]
  by_cases h4 : 0 < s.Databases.length
  · rw [if_pos h4, if_pos h4, mapLookup_cons_self]
  · rw [if_neg h4, if_neg h4]
    rfl

theorem stateReadEntry_service (sv : AppServiceSpec) :
    (flattenAppServiceMap sv).map stateReadEntry = flattenAppServiceMap sv := by
  simp [flattenAppServiceMap, stateReadEntry, DVal.listV, DVal.setV]

theorem stateReadEntry_site (sv : AppStaticSiteSpec) :
    (flattenAppStaticSiteMap sv).map stateReadEntry = flattenAppStaticSiteMap sv := by
  simp [flattenAppStaticSiteMap, stateReadEntry, DVal.listV, DVal.setV]

theorem stateReadEntry_worker (w : AppWorkerSpec) :
    (flattenAppWorkerMap w).map stateReadEntry = flattenAppWorkerMap w := by
  simp [flattenAppWorkerMap, stateReadEntry, DVal.listV, DVal.setV]

theorem stateRead_flatMapOf_service (s : AppSpec) :
    stateReadList (mapLookup (flattenAppSpecMapOf s) "service") =
      .listV (s.Services.map (fun sv => .mapV (flattenAppServiceMap sv))) := by
  rw [lookup_flatMapOf_service]
  by_cases h1 : 0 < s.Services.length
  · rw [if_pos h1]
    simp only [DVal.mapListV, stateReadList, dmaps_toList_ofList, flattenAppSpecServices,
      List.map_map, Function.comp]
    simp [stateReadEntry_service]
  · rw [if_neg h1]
    have h0 : s.Services = [] := List.length_eq_zero.mp (Nat.eq_zero_of_not_pos h1)
    simp [h0, stateReadList]

theorem stateRead_flatMapOf_staticSite (s : AppSpec) :
    stateReadList (mapLookup (flattenAppSpecMapOf s) "static_site") =
      .listV (s.StaticSites.map (fun sv => .mapV (flattenAppStaticSiteMap sv))) := by
  rw [lookup_flatMapOf_staticSite]
  by_cases h2 : 0 < s.StaticSites.length
  · rw [if_pos h2]
    simp only [DVal.mapListV, stateReadList, dmaps_toList_ofList, flattenAppSpecStaticSites,
      List.map_map, Function.comp]
    simp [stateReadEntry_site]
  · rw [if_neg h2]
    have h0 : s.StaticSites = [] := List.length_eq_zero.mp (Nat.eq_zero_of_not_pos h2)
    simp [h0, stateReadList]

theorem stateRead_flatMapOf_worker (s : AppSpec) :
    stateReadList (mapLookup (flattenAppSpecMapOf s) "worker") =
      .listV (s.Workers.map (fun w => .mapV (flattenAppWorkerMap w))) := by
  rw [lookup_flatMapOf_worker]
  by_cases h3 : 0 < s.Workers.length
  · rw [if_pos h3]
    simp only [DVal.mapListV, stateReadList, dmaps_toList_ofList, flattenAppSpecWorkers,
      List.map_map, Function.comp]
    simp [stateReadEntry_worker]
  · rw [if_neg h3]
    have h0 : s.Workers = [] := List.length_eq_zero.mp (Nat.eq_zero_of_not_pos h3)
    simp [h0, stateReadList]

theorem stateRead_flatMapOf_database (s : AppSpec) :
    stateReadList (mapLookup (flattenAppSpecMapOf s) "database") =
      .listV (s.Databases.map (fun db => .mapV ((flattenAppDatabaseMap db).map stateReadEntry))) := by
  rw [lookup_flatMapOf_database]
  by_cases h4 : 0 < s.Databases.length
  · rw [if_pos h4]
    simp only [DVal.mapListV, stateReadList, dmaps_toList_ofList, flattenAppSpecDatabases,
      List.map_map, Function.comp]
    rfl
  · rw [if_neg h4]
    have h0 : s.Databases = [] := List.length_eq_zero.mp (Nat.eq_zero_of_not_pos h4)
    simp [h0, stateReadList]

theorem expandServices_stateRead (svcs : List AppServiceSpec) :
    ∃ l', expandAppSpecServices (svcs.map (fun sv => .mapV (flattenAppServiceMap sv))) =
      some l' ∧ List.Forall₂ ServiceMatch l' svcs :=
  mapOptM_forall2 _ _ _ svcs (fun sv _ => expandAppServiceMap_flatten sv)

theorem expandSites_stateRead (sites : List AppStaticSiteSpec) :
    ∃ l', expandAppSpecStaticSites (sites.map (fun sv => .mapV (flattenAppStaticSiteMap sv))) =
      some l' ∧ List.Forall₂ SiteMatch l' sites :=
  mapOptM_forall2 _ _ _ sites (fun sv _ => expandAppStaticSiteMap_flatten sv)

theorem expandWorkers_stateRead (ws : List AppWorkerSpec) :
    ∃ l', expandAppSpecWorkers (ws.map (fun w => .mapV (flattenAppWorkerMap w))) =
      some l' ∧ List.Forall₂ WorkerMatch l' ws :=
  mapOptM_forall2 _ _ _ ws (fun w _ => expandAppWorkerMap_flatten w)

theorem expandDatabases_stateRead (dbs : List AppDatabaseSpec) :
    expandAppSpecDatabases
      (dbs.map (fun db => .mapV ((flattenAppDatabaseMap db).map stateReadEntry))) =
      some dbs := by
  have h := mapOptM_map_eq expandAppDatabaseMap
    (fun db => DVal.mapV ((flattenAppDatabaseMap db).map stateReadEntry)) id dbs
    (fun db _ => expandAppDatabaseMap_flatten_norm db)
  simpa [expandAppSpecDatabases] using h

/-- Claim C1 (amended).  As Go functions, `expandAppSpec` and `flattenAppSpec`
do not compose: the flattened map stores component lists as
`[]map[string]interface{}` and omits them when empty, and stores each database
engine as `godo.AppDatabaseSpecEngine`, while `expandAppSpec` asserts
`[]interface{}` and `string` on keys that must be present
(`C1 counterexample`).  The bidirectional mapping holds once the flattened map
is re-read the way the Terraform engine re-reads state (`normAppSpecState`):
for every non-nil `godo.AppSpec` value `s`, `expandAppSpec` applied to the
re-read flattening of `s` succeeds and returns an `AppSpec` with the same
`Name` and `Region`, the same set of `Domains`, the same `Databases`, and the
same `Services`, `StaticSites` and `Workers` up to the env-set round trip
(field-wise equal, env lists equal as sets). -/
theorem expand_flattenAppSpec_norm (s : AppSpec) :
    ∃ s', expandAppSpec ((flattenAppSpec (some s)).map (fun r => .mapV (normAppSpecState r))) =
        some s' ∧
      s'.Name = s.Name ∧ s'.Region = s.Region ∧
      (∀ d, d ∈ s'.Domains ↔ d ∈ s.Domains) ∧
      List.Forall₂ ServiceMatch s'.Services s.Services ∧
      List.Forall₂ SiteMatch s'.StaticSites s.StaticSites ∧
      List.Forall₂ WorkerMatch s'.Workers s.Workers ∧
      s'.Databases = s.Databases := by
  obtain ⟨dl', hdl, hdiff⟩ := expandAppDomainSpec_flatten s.Domains
  obtain ⟨svcs', hsvcs, hFsvc⟩ := expandServices_stateRead s.Services
  obtain ⟨sites', hsites, hFsite⟩ := expandSites_stateRead s.StaticSites
  obtain ⟨ws', hws, hFw⟩ := expandWorkers_stateRead s.Workers
  have hdbs := expandDatabases_stateRead s.Databases
  have hmname : mapLookup (normAppSpecState (flattenAppSpecMapOf s)) "name" =
      .vStr s.Name := by
    simp [normAppSpecState, lookup_flatMapOf_name]
  have hmregion : mapLookup (normAppSpecState (flattenAppSpecMapOf s)) "region" =
      .vStr s.Region := by
    simp [normAppSpecState, lookup_flatMapOf_region]
  have hmdom : mapLookup (normAppSpecState (flattenAppSpecMapOf s)) "domains" =
      .setV (flattenAppDomainSpec s.Domains) := by
    simp [normAppSpecState, lookup_flatMapOf_domains]
  have hmsvc : mapLookup (normAppSpecState (flattenAppSpecMapOf s)) "service" =
      .listV (s.Services.map (fun sv => .mapV (flattenAppServiceMap sv))) := by
    simp only [normAppSpecState]
    rw [mapLookup_cons_ne _ _ _ _ (by decide), mapLookup_cons_ne _ _ _ _ (by decide),
      mapLookup_cons_ne _ _ _ _ (by decide), mapLookup_cons_self]
    exact stateRead_flatMapOf_service s
  have hmsite : mapLookup (normAppSpecState (flattenAppSpecMapOf s)) "static_site" =
      .listV (s.StaticSites.map (fun sv => .mapV (flattenAppStaticSiteMap sv))) := by
    simp only [normAppSpecState]
    rw [mapLookup_cons_ne _ _ _ _ (by decide), mapLookup_cons_ne _ _ _ _ (by decide),
      mapLookup_cons_ne _ _ _ _ (by decide), mapLookup_cons_ne _ _ _ _ (by decide),
      mapLookup_cons_self]
    exact stateRead_flatMapOf_staticSite s
  have hmw : mapLookup (normAppSpecState (flattenAppSpecMapOf s)) "worker" =
      .listV (s.Workers.map (fun w => .mapV (flattenAppWorkerMap w))) := by
    simp only [normAppSpecState]
    rw [mapLookup_cons_ne _ _ _ _ (by decide), mapLookup_cons_ne _ _ _ _ (by decide),
      mapLookup_cons_ne _ _ _ _ (by decide), mapLookup_cons_ne _ _ _ _ (by decide),
      mapLookup_cons_ne _ _ _ _ (by decide), mapLookup_cons_self]
    exact stateRead_flatMapOf_worker s
  have hmdb : mapLookup (normAppSpecState (flattenAppSpecMapOf s)) "database" =
      .listV (s.Databases.map (fun db => .mapV ((flattenAppDatabaseMap db).map stateReadEntry))) := by
    simp only [normAppSpecState]
    rw [mapLookup_cons_ne _ _ _ _ (by decide), mapLookup_cons_ne _ _ _ _ (by decide),
      mapLookup_cons_ne _ _ _ _ (by decide), mapLookup_cons_ne _ _ _ _ (by decide),
      mapLookup_cons_ne _ _ _ _ (by decide), mapLookup_cons_ne _ _ _ _ (by decide),
      mapLookup_cons_self]
    exact stateRead_flatMapOf_database s
  have hrdom : readAppSpecDomains (normAppSpecState (flattenAppSpecMapOf s)) = some dl' := by
    simp [readAppSpecDomains, hmdom, hdl]
  have hrsvc : readAppSpecServiceList (normAppSpecState (flattenAppSpecMapOf s)) =
      some svcs' := by
    simp [readAppSpecServiceList, hmsvc, hsvcs]
  have hrsite : readAppSpecStaticSiteList (normAppSpecState (flattenAppSpecMapOf s)) =
      some sites' := by
    simp [readAppSpecStaticSiteList, hmsite, hsites]
  have hrw : readAppSpecWorkerList (normAppSpecState (flattenAppSpecMapOf s)) = some ws' := by
    simp [readAppSpecWorkerList, hmw, hws]
  have hrdb : readAppSpecDatabaseList (normAppSpecState (flattenAppSpecMapOf s)) =
      some s.Databases := by
    simp [readAppSpecDatabaseList, hmdb, hdbs]
  refine ⟨AppSpec.mk s.Name s.Region dl' svcs' sites' ws' s.Databases, ?_, rfl, rfl,
    hdiff, hFsvc, hFsite, hFw, rfl⟩
  rw [flattenAppSpec_some]
  have hnil : (DVal.mapV (normAppSpecState (flattenAppSpecMapOf s))).isNil = false := rfl
  simp only [List.map_cons, List.map_nil, expandAppSpec, hnil, Bool.false_eq_true, if_false,
    DVal.asMap_mapV, Option.bind_eq_bind, Option.some_bind, hmname, hmregion, DVal.asStr,
    hrdom, hrsvc, hrsite, hrw, hrdb]
  rfl

/-- Counterexample to claim C1 as stated: already for the zero-valued spec
`godo.AppSpec{}`, feeding `flattenAppSpec`'s output back to `expandAppSpec`
panics (the `service` key is absent, so the `.([]interface{})` assertion
fails) instead of returning the original spec. -/
theorem expandAppSpec_flatten_panics :
    expandAppSpec ((flattenAppSpec (some zeroAppSpec)).map DVal.mapV) = none ∧
    expandAppSpec ((flattenAppSpec (some zeroAppSpec)).map DVal.mapV) ≠ some zeroAppSpec := by
  constructor
  · rfl
  · intro h
    exact Option.noConfusion (Eq.trans (Eq.symm rfl) h)

/-- Claim C2 (amended).  For every well-typed app-spec configuration map
(canonical form `appCfgMap c`) whose domain set and env sets are duplicate
free, `flattenAppSpec (expandAppSpec [m])` returns a singleton list whose map
is `m` itself except for exactly three differences (`appCfgFlatMap`): the
`service`, `static_site`, `worker` and `database` keys are dropped when their
block lists are empty, the remaining component lists carry the Go dynamic
type `[]map[string]interface{}` instead of `[]interface{}`, and each database
`engine` string is re-wrapped as `godo.AppDatabaseSpecEngine`. -/
theorem flatten_expandAppSpec_cfg (c : AppCfg) (hdom : c.domains.Nodup)
    (hsvc : ∀ s ∈ c.services, s.envs.Nodup)
    (hsite : ∀ s ∈ c.staticSites, s.envs.Nodup)
    (hwork : ∀ w ∈ c.workers, w.envs.Nodup) :
    flattenAppSpec (expandAppSpec [.mapV (appCfgMap c)]) = [appCfgFlatMap c] := by
  rw [expandAppSpec_cfg c]
  exact flattenAppSpec_cfg c hdom hsvc hsite hwork

/-- Counterexample to claim C2 as stated: for the well-typed map of the
configuration with no domains and no component blocks, the round trip returns
a singleton whose map lacks the `service`, `static_site`, `worker` and
`database` keys that the input carries (with empty-list values), so it does
not equal the input map; the disagreement is on list-typed attributes, which
the claim compares as plain values. -/
theorem flatten_expand_drops_empty_keys :
    flattenAppSpec (expandAppSpec [.mapV (appCfgMap (AppCfg.mk "" "" [] [] [] [] []))]) =
      [[("name", .vStr ""), ("region", .vStr ""), ("domains", .setV [])]] ∧
    flattenAppSpec (expandAppSpec [.mapV (appCfgMap (AppCfg.mk "" "" [] [] [] [] []))]) ≠
      [appCfgMap (AppCfg.mk "" "" [] [] [] [] [])] := by
  constructor
  · rfl
  · decide

/-- A concrete well-typed configuration exercising every component kind. -/
def sampleAppCfg : AppCfg :=
  AppCfg.mk "app" "nyc3" ["example.com", "example.org"]
    [SvcCfg.mk "svc" "run" "build" 8080 "Dockerfile"
      [EnvCfg.mk "v1" "RUN_TIME" "K1" "GENERAL", EnvCfg.mk "v2" "BUILD_TIME" "K2" "SECRET"]
      "basic-xxs" 2 "/svc" "go"
      (some (GitHubCfg.mk "o/r" "main" true)) (some (GitCfg.mk "dev" "https://g.example/r.git"))
      ["/api"] (some "/health")]
    [SiteCfg.mk "site" "build" "Dockerfile" [EnvCfg.mk "v" "RUN_TIME" "K" "GENERAL"]
      "/site" "public" "index.html" "404.html" "html"
      (some (GitHubCfg.mk "o/s" "main" false)) none ["/"]]
    [WorkerCfg.mk "wkr" "run" "build" "Dockerfile" [] "basic-xxs" 1 "/wkr" "go"
      none (some (GitCfg.mk "main" "https://g.example/w.git"))]
    [DbCfg.mk "db" "PG" "13" true "cluster" "name" "user"]

/-- Witness for `flatten_expandAppSpec_cfg` at `sampleAppCfg`. -/
theorem flatten_expandAppSpec_cfg_witness :
    flattenAppSpec (expandAppSpec [.mapV (appCfgMap sampleAppCfg)]) =
      [appCfgFlatMap sampleAppCfg] :=
  flatten_expandAppSpec_cfg sampleAppCfg (by decide) (by decide) (by decide) (by decide)

/-- Claim C3.  `flattenAppSpecServices` preserves length and order, and the
i-th output map carries exactly the i-th service's fields, with the `github`,
`git`, `routes`, `env` and `health_check` values produced by the respective
flatten functions and the int fields converted by `int(...)`. -/
theorem flattenAppSpecServices_fields (services : List AppServiceSpec) :
    (flattenAppSpecServices services).length = services.length ∧
    ∀ (i : Nat) (h : i < services.length),
      (flattenAppSpecServices services).get
          ⟨i, by simpa [flattenAppSpecServices] using h⟩ =
        [("name", .vStr (services.get ⟨i, h⟩).Name),
         ("run_command", .vStr (services.get ⟨i, h⟩).RunCommand),
         ("build_command", .vStr (services.get ⟨i, h⟩).BuildCommand),
         ("github", .listV (flattenAppGitHubSourceSpec (services.get ⟨i, h⟩).GitHub)),
         ("git", .listV (flattenAppGitSourceSpec (services.get ⟨i, h⟩).Git)),
         ("http_port", .vInt (services.get ⟨i, h⟩).HTTPPort),
         ("routes", .listV (flattenAppRoutes (services.get ⟨i, h⟩).Routes)),
         ("dockerfile_path", .vStr (services.get ⟨i, h⟩).DockerfilePath),
         ("env", .setV (flattenAppEnvs (services.get ⟨i, h⟩).Envs)),
         ("health_check", .listV (flattenAppHealthCheck (services.get ⟨i, h⟩).HealthCheck)),
         ("instance_size_slug", .vStr (services.get ⟨i, h⟩).InstanceSizeSlug),
         ("instance_count", .vInt (services.get ⟨i, h⟩).InstanceCount),
         ("source_dir", .vStr (services.get ⟨i, h⟩).SourceDir),
         ("environment_slug", .vStr (services.get ⟨i, h⟩).EnvironmentSlug)] := by
  constructor
  · simp [flattenAppSpecServices]
  · intro i h
    simp only [flattenAppSpecServices, List.get_map]
    rfl

/-- Witness for `flattenAppSpecServices_fields` at a one-service list and
index 0. -/
theorem flattenAppSpecServices_fields_witness :
    (flattenAppSpecServices [AppServiceSpec.mk "n" "r" "b" 80 "D" [] "s" 1 "sd" "es"
        none none [] none]).get ⟨0, by decide⟩ =
      [("name", .vStr "n"), ("run_command", .vStr "r"), ("build_command", .vStr "b"),
       ("github", .listV []), ("git", .listV []), ("http_port", .vInt 80),
       ("routes", .listV []), ("dockerfile_path", .vStr "D"), ("env", .setV []),
       ("health_check", .listV []), ("instance_size_slug", .vStr "s"),
       ("instance_count", .vInt 1), ("source_dir", .vStr "sd"),
       ("environment_slug", .vStr "es")] := by
  have h := (flattenAppSpecServices_fields [AppServiceSpec.mk "n" "r" "b" 80 "D" [] "s" 1
    "sd" "es" none none [] none]).2 0 (by decide)
  simpa using h

/-- Claim C4.  For every well-typed component configuration map, the expand
loop bodies set the `GitHub`, `Git`, `Routes` and `HealthCheck` fields of the
produced spec exactly when the corresponding `github`, `git`, `routes` and
`health_check` block lists are non-empty (a pointer field stays `none`, the
`Routes` slice stays nil, when the list is empty), and the scalar and env
fields always equal the map's own scalar entries, whatever those block lists
are: for services, and analogously for static sites (`GitHub`, `Git`,
`Routes`) and workers (`GitHub`, `Git`). -/
theorem expandComponents_source_frame :
    (∀ c : SvcCfg, ∃ s, expandAppSpecServices [.mapV (svcCfgMap c)] = some [s] ∧
      (s.GitHub = none ↔ c.github = none) ∧
      (s.Git = none ↔ c.git = none) ∧
      (s.Routes = [] ↔ c.routes = []) ∧
      (s.HealthCheck = none ↔ c.healthCheck = none) ∧
      s.Name = c.name ∧ s.RunCommand = c.runCommand ∧ s.BuildCommand = c.buildCommand ∧
      s.HTTPPort = c.httpPort ∧ s.DockerfilePath = c.dockerfilePath ∧
      s.InstanceSizeSlug = c.instanceSizeSlug ∧ s.InstanceCount = c.instanceCount ∧
      s.SourceDir = c.sourceDir ∧ s.EnvironmentSlug = c.environmentSlug ∧
      s.Envs = c.envs.map envCfgVar) ∧
    (∀ c : SiteCfg, ∃ s, expandAppSpecStaticSites [.mapV (siteCfgMap c)] = some [s] ∧
      (s.GitHub = none ↔ c.github = none) ∧
      (s.Git = none ↔ c.git = none) ∧
      (s.Routes = [] ↔ c.routes = []) ∧
      s.Name = c.name ∧ s.BuildCommand = c.buildCommand ∧
      s.DockerfilePath = c.dockerfilePath ∧ s.SourceDir = c.sourceDir ∧
      s.OutputDir = c.outputDir ∧ s.IndexDocument = c.indexDocument ∧
      s.ErrorDocument = c.errorDocument ∧ s.EnvironmentSlug = c.environmentSlug ∧
      s.Envs = c.envs.map envCfgVar) ∧
    (∀ c : WorkerCfg, ∃ w, expandAppSpecWorkers [.mapV (workerCfgMap c)] = some [w] ∧
      (w.GitHub = none ↔ c.github = none) ∧
      (w.Git = none ↔ c.git = none) ∧
      w.Name = c.name ∧ w.RunCommand = c.runCommand ∧ w.BuildCommand = c.buildCommand ∧
      w.DockerfilePath = c.dockerfilePath ∧ w.InstanceSizeSlug = c.instanceSizeSlug ∧
      w.InstanceCount = c.instanceCount ∧ w.SourceDir = c.sourceDir ∧
      w.EnvironmentSlug = c.environmentSlug ∧ w.Envs = c.envs.map envCfgVar) := by
  refine ⟨fun c => ⟨svcCfgSpec c, ?_⟩, fun c => ⟨siteCfgSpec c, ?_⟩,
    fun c => ⟨workerCfgSpec c, ?_⟩⟩
  · have h := mapOptM_map_eq expandAppServiceMap (fun s => DVal.mapV (svcCfgMap s))
      svcCfgSpec [c] (fun s _ => expandAppServiceMap_cfg s)
    refine ⟨by simpa [expandAppSpecServices] using h, ?_, ?_, ?_, ?_, rfl, rfl, rfl, rfl,
      rfl, rfl, rfl, rfl, rfl, rfl⟩
    · simp [svcCfgSpec, Option.map_eq_none]
    · simp [svcCfgSpec, Option.map_eq_none]
    · simp [svcCfgSpec]
    · simp [svcCfgSpec, Option.map_eq_none]
  · have h := mapOptM_map_eq expandAppStaticSiteMap (fun s => DVal.mapV (siteCfgMap s))
      siteCfgSpec [c] (fun s _ => expandAppStaticSiteMap_cfg s)
    refine ⟨by simpa [expandAppSpecStaticSites] using h, ?_, ?_, ?_, rfl, rfl, rfl, rfl,
      rfl, rfl, rfl, rfl, rfl⟩
    · simp [siteCfgSpec, Option.map_eq_none]
    · simp [siteCfgSpec, Option.map_eq_none]
    · simp [siteCfgSpec]
  · have h := mapOptM_map_eq expandAppWorkerMap (fun w => DVal.mapV (workerCfgMap w))
      workerCfgSpec [c] (fun w _ => expandAppWorkerMap_cfg w)
    refine ⟨by simpa [expandAppSpecWorkers] using h, ?_, ?_, rfl, rfl, rfl, rfl, rfl,
      rfl, rfl, rfl, rfl⟩
    · simp [workerCfgSpec, Option.map_eq_none]
    · simp [workerCfgSpec, Option.map_eq_none]

/-- Claim C5.  `expandAppDomainSpec` maps a list of strings to an equally long
list of `AppDomainSpec` values in order (the i-th `Domain` is the i-th
string); `flattenAppDomainSpec` returns a duplicate-free set holding exactly
the `Domain` strings of its input; composing the two yields exactly the set
of the input strings. -/
theorem domain_expand_flatten_set :
    (∀ ss : List String,
      expandAppDomainSpec (ss.map DVal.vStr) = some (ss.map AppDomainSpec.mk)) ∧
    (∀ dl : List AppDomainSpec, (flattenAppDomainSpec dl).Nodup ∧
      ∀ x, x ∈ flattenAppDomainSpec dl ↔ ∃ d ∈ dl, x = .vStr d.Domain) ∧
    (∀ ss : List String, ∀ x,
      x ∈ flattenAppDomainSpec (ss.map AppDomainSpec.mk) ↔ x ∈ ss.map DVal.vStr) := by
  refine ⟨expandAppDomainSpec_cfg, fun dl => ⟨?_, fun x => ?_⟩, fun ss x => ?_⟩
  · rw [flattenAppDomainSpec]
    exact ssetOfList_nodup _
  · rw [flattenAppDomainSpec, ssetOfList_mem, List.mem_map]
    constructor
    · rintro ⟨d, hd, rfl⟩
      exact ⟨d, hd, rfl⟩
    · rintro ⟨d, hd, rfl⟩
      exact ⟨d, hd, rfl⟩
  · rw [flattenAppDomainSpec, ssetOfList_mem, List.map_map]
    have hcomp : (fun domain => DVal.vStr domain.Domain) ∘ AppDomainSpec.mk = DVal.vStr := rfl
    rw [hcomp]

/-- Claim C6.  Each component schema embeds the full component base: every
attribute key of `appSpecComponentBase` is present in `appSpecServicesSchema`,
`appSpecStaticSiteSchema` and `appSpecWorkerSchema` with the base's schema
definition, and every component-specific key keeps its own definition (the
base overwrites nothing, the key sets being disjoint). -/
theorem componentSchemas_embed_base :
    (∀ k ∈ ["name", "git", "github", "dockerfile_path", "build_command", "env",
        "routes", "source_dir", "environment_slug"],
      schemaLookup appSpecServicesSchema.fields k = schemaLookup appSpecComponentBase k ∧
      schemaLookup appSpecStaticSiteSchema.fields k = schemaLookup appSpecComponentBase k ∧
      schemaLookup appSpecWorkerSchema.fields k = schemaLookup appSpecComponentBase k) ∧
    (∀ k ∈ ["run_command", "http_port", "instance_size_slug", "instance_count",
        "health_check"],
      schemaLookup appSpecServicesSchema.fields k = schemaLookup serviceSpecificSchema k) ∧
    (∀ k ∈ ["output_dir", "index_document", "error_document"],
      schemaLookup appSpecStaticSiteSchema.fields k = schemaLookup staticSiteSpecificSchema k) ∧
    (∀ k ∈ ["run_command", "instance_size_slug", "instance_count"],
      schemaLookup appSpecWorkerSchema.fields k = schemaLookup workerSpecificSchema k) := by
  refine ⟨?_, ?_, ?_, ?_⟩ <;> intro k hk <;> fin_cases hk
  · exact ⟨rfl, rfl, rfl⟩
  · exact ⟨rfl, rfl, rfl⟩
  · exact ⟨rfl, rfl, rfl⟩
  · exact ⟨rfl, rfl, rfl⟩
  · exact ⟨rfl, rfl, rfl⟩
  · exact ⟨rfl, rfl, rfl⟩
  · exact ⟨rfl, rfl, rfl⟩
  · exact ⟨rfl, rfl, rfl⟩
  · exact ⟨rfl, rfl, rfl⟩
  · rfl
  · rfl
  · rfl
  · rfl
  · rfl
  · rfl
  · rfl
  · rfl
  · rfl
  · rfl
  · rfl
/-- Witness for `componentSchemas_embed_base` at the base key `name` and the
service-specific key `http_port`. -/
theorem componentSchemas_embed_base_witness :
    schemaLookup appSpecServicesSchema.fields "name" =
      schemaLookup appSpecComponentBase "name" ∧
    schemaLookup appSpecServicesSchema.fields "http_port" =
      schemaLookup serviceSpecificSchema "http_port" :=
  ⟨(componentSchemas_embed_base.1 "name" (by simp)).1,
   componentSchemas_embed_base.2.1 "http_port" (by simp)⟩

/-- Claim C7.  The expand functions perform no value validation: for every
string values whatsoever — including strings outside the sets the schema's
`StringInSlice` validators declare — `expandAppEnvs` copies `scope` and `type`
verbatim into the `AppVariableDefinition`, and `expandAppSpecDatabases` copies
`engine` verbatim; the declared validator sets are exactly
`{UNSET, RUN_TIME, BUILD_TIME, RUN_AND_BUILD_TIME}` for `scope`,
`{GENERAL, SECRET}` for `type` and `{UNSET, MYSQL, PG, REDIS}` for `engine`,
and their enforcement is the Terraform engine's. -/
theorem expand_copies_validated_strings_verbatim :
    (∀ value scope key ty : String,
      expandAppEnvs [.mapV [("value", .vStr value), ("scope", .vStr scope),
        ("key", .vStr key), ("type", .vStr ty)]] =
        some [AppVariableDefinition.mk value scope key ty]) ∧
    (∀ c : DbCfg, expandAppSpecDatabases [.mapV (dbCfgMap c)] = some [dbCfgSpec c]) ∧
    (schemaLookup appSpecEnvSchema.fields "scope").map SchemaNode.validateSlice =
      some (some (["UNSET", "RUN_TIME", "BUILD_TIME", "RUN_AND_BUILD_TIME"], false)) ∧
    (schemaLookup appSpecEnvSchema.fields "type").map SchemaNode.validateSlice =
      some (some (["GENERAL", "SECRET"], false)) ∧
    (schemaLookup appSpecDatabaseSchema.fields "engine").map SchemaNode.validateSlice =
      some (some (["UNSET", "MYSQL", "PG", "REDIS"], false)) := by
  exact ⟨fun value scope key ty => rfl, fun c => rfl, rfl, rfl, rfl⟩

/-- Claim C8.  The top-level mapping boundary is total on nil and empty
input: `expandAppSpec` returns the fresh zero value `godo.AppSpec{}` when the
configuration list is empty or starts with the nil interface, and
`flattenAppSpec`, `flattenAppGitHubSourceSpec`, `flattenAppGitSourceSpec` and
`flattenAppHealthCheck` return the empty list on nil input and a singleton
otherwise. -/
theorem mapping_boundary_totality :
    expandAppSpec [] = some zeroAppSpec ∧
    (∀ rest : List DVal, expandAppSpec (DVal.vNil :: rest) = some zeroAppSpec) ∧
    flattenAppSpec none = [] ∧
    (∀ s : AppSpec, (flattenAppSpec (some s)).length = 1) ∧
    flattenAppGitHubSourceSpec none = [] ∧
    (∀ g : GitHubSourceSpec, (flattenAppGitHubSourceSpec (some g)).length = 1) ∧
    flattenAppGitSourceSpec none = [] ∧
    (∀ g : GitSourceSpec, (flattenAppGitSourceSpec (some g)).length = 1) ∧
    flattenAppHealthCheck none = [] ∧
    (∀ c : AppServiceSpecHealthCheck, (flattenAppHealthCheck (some c)).length = 1) := by
  refine ⟨rfl, fun rest => rfl, rfl, fun s => ?_, rfl, fun g => rfl, rfl, fun g => rfl,
    rfl, fun c => rfl⟩
  rw [flattenAppSpec_some]
  rfl

/-- Claim C9.  `expandAppGitHubSourceSpec`, `expandAppGitSourceSpec` and
`expandAppHealthCheck` read `config[0]` with no length guard, so the empty
list panics; on a non-empty list whose head is a well-typed map the access is
in bounds and the expansion succeeds; and every call site reaches them only
behind a `len > 0` test, so expanding any well-typed component list through
`expandAppSpecServices`, `expandAppSpecStaticSites` or `expandAppSpecWorkers`
succeeds with no out-of-bounds access. -/
theorem sourceSpec_index_safety :
    expandAppGitHubSourceSpec [] = none ∧
    expandAppGitSourceSpec [] = none ∧
    expandAppHealthCheck [] = none ∧
    (∀ (g : GitHubCfg) (rest : List DVal),
      expandAppGitHubSourceSpec (.mapV (gitHubCfgMap g) :: rest) = some (gitHubCfgSpec g)) ∧
    (∀ (g : GitCfg) (rest : List DVal),
      expandAppGitSourceSpec (.mapV (gitCfgMap g) :: rest) = some (gitCfgSpec g)) ∧
    (∀ (p : String) (rest : List DVal),
      expandAppHealthCheck (.mapV [("path", .vStr p)] :: rest) =
        some (AppServiceSpecHealthCheck.mk p)) ∧
    (∀ cs : List SvcCfg,
      expandAppSpecServices (cs.map (fun c => .mapV (svcCfgMap c))) =
        some (cs.map svcCfgSpec)) ∧
    (∀ cs : List SiteCfg,
      expandAppSpecStaticSites (cs.map (fun c => .mapV (siteCfgMap c))) =
        some (cs.map siteCfgSpec)) ∧
    (∀ cs : List WorkerCfg,
      expandAppSpecWorkers (cs.map (fun c => .mapV (workerCfgMap c))) =
        some (cs.map workerCfgSpec)) :=
  ⟨rfl, rfl, rfl, fun g rest => rfl, fun g rest => rfl, fun p rest => rfl,
   expandAppSpecServices_cfg, expandAppSpecStaticSites_cfg, expandAppSpecWorkers_cfg⟩

/-- Claim C10.  The sweeper never deletes outside its test scope: every bucket
`testSweepS3BucketObjects` invokes `deleteAllS3ObjectVersions` on comes from
the listing, has a name starting with one of the six acceptance-test patterns,
and has its resolved region equal to the region being swept; every other
bucket is skipped with no delete call. -/
theorem sweeper_deletes_only_test_scope (region : String) (buckets : List SweepBucket)
    (bn : String) (h : bn ∈ (testSweepS3BucketObjects region buckets).1) :
    ∃ b ∈ buckets, b.name = bn ∧
      (∃ p ∈ sweepNamePatterns, List.isPrefixOf p.data bn.data = true) ∧
      testS3BucketRegion b = .ok region := by
  induction buckets with
  | nil => simp [testSweepS3BucketObjects] at h
  | cons b rest ih =>
    rw [testSweepS3BucketObjects] at h
    by_cases hscope : sweepHasTestScope b.name
    · rw [if_neg (by simpa using hscope)] at h
      rcases hreg : testS3BucketRegion b with e | r
      · rw [hreg] at h
        dsimp only at h
        obtain ⟨b', hb', hprops⟩ := ih h
        exact ⟨b', List.mem_cons_of_mem b hb', hprops⟩
      · rw [hreg] at h
        dsimp only at h
        by_cases hr : r = region
        · subst hr
          rw [if_neg (by simp)] at h
          have hpat : ∃ p ∈ sweepNamePatterns, List.isPrefixOf p.data b.name.data = true := by
            simpa [sweepHasTestScope, List.any_eq_true] using hscope
          rcases hdel : b.deleteResult with _ | e
          · rw [hdel] at h
            dsimp only at h
            rcases List.mem_cons.mp h with hbn | hbn
            · exact ⟨b, List.mem_cons_self b rest, hbn.symm, hbn ▸ hpat, hreg⟩
            · obtain ⟨b', hb', hprops⟩ := ih hbn
              exact ⟨b', List.mem_cons_of_mem b hb', hprops⟩
          · rw [hdel] at h
            dsimp only at h
            rcases List.mem_singleton.mp h with hbn
            exact ⟨b, List.mem_cons_self b rest, hbn.symm, hbn ▸ hpat, hreg⟩
        · rw [if_pos (by simpa using hr)] at h
          obtain ⟨b', hb', hprops⟩ := ih h
          exact ⟨b', List.mem_cons_of_mem b hb', hprops⟩
    · rw [if_pos (by simpa using hscope)] at h
      obtain ⟨b', hb', hprops⟩ := ih h
      exact ⟨b', List.mem_cons_of_mem b hb', hprops⟩

/-- Witness for `sweeper_deletes_only_test_scope`: a swept `tf-test` bucket in
the swept region. -/
theorem sweeper_deletes_only_test_scope_witness :
    ∃ b ∈ [SweepBucket.mk "tf-test-1" (.ok none) none,
           SweepBucket.mk "other" (.ok none) none],
      b.name = "tf-test-1" ∧
      (∃ p ∈ sweepNamePatterns, List.isPrefixOf p.data "tf-test-1".data = true) ∧
      testS3BucketRegion b = .ok "nyc3" :=
  sweeper_deletes_only_test_scope "nyc3"
    [SweepBucket.mk "tf-test-1" (.ok none) none, SweepBucket.mk "other" (.ok none) none]
    "tf-test-1" (by decide)
